import Mathlib

/-!
# muAlphaSim: geometry indexing, rate table and shell-transit stepping

A shallow embedding of the core of the simulation:

* `geom.GeometryConfig` (include/GeometryConfig.hh): panels of cones and the
  flattened cone index;
* `RateTable2D` (src/RateTable2D.cc): scattered `(rho, z, rate)` points with
  bounding-box membership and interpolation;
* `SteppingAction` (src/SteppingAction.cc): capture / shell-transit state
  machine with the ionisation decision;
* `RunAction` (src/RunAction.cc): the per-worker tallies, their merge and the
  run summary;
* `ConeCombBuilder` (src/ConeCombBuilder.cc): placement of the cones, their
  copy numbers and the `ConeInfo` list;
* `DetectorConstruction` (src/DetectorConstruction.cc): half-extents of the
  world box.

Conventions of the embedding.

* A C++ `double` is an element of a linearly ordered field `α` (exact
  arithmetic, no rounding, no NaN or infinities).  The sentinels
  `numeric_limits<double>::max()` / `lowest()` that start a running minimum /
  maximum are `⊤` / `⊥`.
* A C++ `int` is an `Int`; the result of an `int` product is reduced to 32-bit
  two's complement (`wrapInt32`).  `std::size_t` is a `Nat` below `2^64`, with
  every sum and difference reduced modulo `2^64` (`toSizeT` converts an `int`).
* `unsigned` tally counters are `Nat` below `2^32`, `+= 1` is taken modulo `2^32`.
* `std::vector` is `List`; a subscript outside the vector has no defined
  behaviour and makes the embedded function return `none`.
* `std::exp` and `std::hypot` come from the C library and are parameters, and
  so is the stream extraction `iss >> r >> z >> w` of the table loader.
-/

namespace geom

/-! ## GeometryConfig.hh -/

/-- Minimal 3-vector, `struct Vec3` (nm). -/
structure Vec3 (α : Type) where
  x_nm : α
  y_nm : α
  z_nm : α
deriving DecidableEq, Repr

/-- Dimensions of a single nano-cone, `struct ConeSpec`. -/
structure ConeSpec (α : Type) where
  r_tip_nm : α
  r_base_nm : α
  h_cone_nm : α
deriving DecidableEq, Repr

/-- Rectangular grid of cones, `struct PanelSpec`; `nx`, `ny` are C++ `int`s. -/
structure PanelSpec (α : Type) where
  nx : Int
  ny : Int
  pitch_nm : α
  x0_nm : α
  offset_nm : Vec3 α
deriving DecidableEq, Repr

/-- Largest value of a 32-bit `int`. -/
def INT_MAX : Int := 2 ^ 31 - 1

/-- Number of values of `std::size_t` (64 bit). -/
def SIZE_MOD : Nat := 2 ^ 64

/-- Reduction of an integer to the 32-bit two's complement range. -/
def wrapInt32 (v : Int) : Int := (v + 2 ^ 31) % 2 ^ 32 - 2 ^ 31

/-- Conversion of an `int` to `std::size_t` (value modulo `2^64`). -/
def toSizeT (v : Int) : Nat := (v % 2 ^ 64).toNat

/-- Total number of cones in a panel: `PanelSpec::nCones`, `return nx * ny;`
(the product is an `int`, the result a `std::size_t`). -/
def PanelSpec.nCones {α : Type} (p : PanelSpec α) : Nat :=
  toSizeT (wrapInt32 (p.nx * p.ny))

/-- Everything the builder needs, `struct GeometryConfig`. -/
structure GeometryConfig (α : Type) where
  cone : ConeSpec α
  gap_nm : α
  r_middle_nm : α
  r_outer_nm : α
  panels : List (PanelSpec α)
deriving DecidableEq, Repr

/-- Number of panels, `GeometryConfig::nPanels`. -/
def GeometryConfig.nPanels {α : Type} (cfg : GeometryConfig α) : Nat :=
  cfg.panels.length

/-- Total number of cones, `GeometryConfig::nCones`:
`total = 0; for (p : panels) total += p.nCones();`. -/
def GeometryConfig.nCones {α : Type} (cfg : GeometryConfig α) : Nat :=
  cfg.panels.foldl (fun total p => (total + p.nCones) % SIZE_MOD) 0

/-- Cell selected by the panel walk: the panel, its position in `panels`, and
the local indices `ix`, `iy`. -/
structure ConeCell (α : Type) where
  panel : PanelSpec α
  panelIdx : Nat
  ix : Nat
  iy : Nat
deriving DecidableEq, Repr

/-- The loop of `GeometryConfig::ConeGlobalCenter` over the panels that are
still to be visited: `k` is the position of the head panel, `running` the
running count.  Returns the cell in which `idx` falls, `none` when the loop
ends without a hit. -/
def coneWalk {α : Type} : List (PanelSpec α) → Nat → Nat → Nat → Option (ConeCell α)
  | [], _, _, _ => none
  | p :: ps, k, running, idx =>
    let pn := p.nCones
    if idx < (running + pn) % SIZE_MOD then
      let loc := (idx + SIZE_MOD - running) % SIZE_MOD
      some ⟨p, k, loc % toSizeT p.nx, loc / toSizeT p.nx⟩
    else
      coneWalk ps (k + 1) ((running + pn) % SIZE_MOD) idx

/-- The panel walk of `ConeGlobalCenter` from the first panel. -/
def GeometryConfig.coneCell {α : Type} (cfg : GeometryConfig α) (idx : Nat) :
    Option (ConeCell α) :=
  coneWalk cfg.panels 0 0 idx

/-- Global centre of cone `idx`, `GeometryConfig::ConeGlobalCenter`; the
all-zero vector when the walk ends without a hit. -/
def GeometryConfig.ConeGlobalCenter {α : Type} [LinearOrderedField α]
    (cfg : GeometryConfig α) (idx : Nat) : Vec3 α :=
  match cfg.coneCell idx with
  | some c =>
    { x_nm := c.panel.x0_nm + c.panel.offset_nm.x_nm
      y_nm := ((c.iy : α) - ((wrapInt32 (c.panel.ny - 1) : Int) : α) / 2) * c.panel.pitch_nm
                + c.panel.offset_nm.y_nm
      z_nm := c.panel.offset_nm.z_nm }
  | none => ⟨0, 0, 0⟩

/-- Exact number of cells `nx * ny` of a panel. -/
def PanelSpec.cells {α : Type} (p : PanelSpec α) : Nat := (p.nx * p.ny).toNat

/-- Number of cones in the panels before position `k`. -/
def GeometryConfig.conesBefore {α : Type} (cfg : GeometryConfig α) (k : Nat) : Nat :=
  ((cfg.panels.take k).map PanelSpec.cells).sum

/-- Panel whose grid is not empty and whose cone count fits an `int`. -/
def PanelSpec.Fits {α : Type} (p : PanelSpec α) : Prop :=
  0 < p.nx ∧ 0 < p.ny ∧ p.nx * p.ny ≤ INT_MAX

/-- Two panels of sizes 2 x 3 and 1 x 2. -/
def cfgTwoPanels : GeometryConfig ℚ :=
  ⟨⟨1 / 2, 10, 1000⟩, 50, 60, 75,
    [⟨2, 3, 150, 0, ⟨0, 0, 0⟩⟩, ⟨1, 2, 150, 400, ⟨0, 0, 0⟩⟩]⟩

/-- A panel with `nx = -1`, `ny = 1`, `x0 = 7`, followed by a 1 x 1 panel. -/
def cfgNegative : GeometryConfig ℚ :=
  ⟨⟨1 / 2, 10, 1000⟩, 50, 60, 75,
    [⟨-1, 1, 150, 7, ⟨0, 0, 0⟩⟩, ⟨1, 1, 150, 0, ⟨0, 0, 0⟩⟩]⟩

/-- The single panel `nx = 2`, `ny = 2`, pitch 10, base offset 0. -/
def cfgSquare : GeometryConfig ℚ :=
  ⟨⟨1 / 2, 10, 1000⟩, 50, 60, 75, [⟨2, 2, 10, 0, ⟨0, 0, 0⟩⟩]⟩

end geom

namespace RateTable2D

/-! ## RateTable2D.cc -/

/-- Single point of the table, `struct RatePoint`. -/
structure RatePoint (α : Type) where
  rho : α
  z : α
  rate : α
deriving DecidableEq, Repr

variable {α : Type} [LinearOrderedField α]

/-- Bounding box accumulated by the loop of `Inside` / `GetBoundingBox`:
`minRho`, `maxRho`, `minZ`, `maxZ`.  `⊤` stands for
`numeric_limits<double>::max()`, `⊥` for `numeric_limits<double>::lowest()`. -/
structure Box (α : Type) where
  minRho : WithTop α
  maxRho : WithBot α
  minZ : WithTop α
  maxZ : WithBot α

/-- One iteration of the bounding-box loop. -/
def boxStep (b : Box α) (pt : RatePoint α) : Box α :=
  { minRho := min b.minRho (pt.rho : WithTop α)
    maxRho := max b.maxRho (pt.rho : WithBot α)
    minZ := min b.minZ (pt.z : WithTop α)
    maxZ := max b.maxZ (pt.z : WithBot α) }

/-- Bounding box of the data points, `RateTable2D::GetBoundingBox`. -/
def GetBoundingBox (mPoints : List (RatePoint α)) : Box α :=
  mPoints.foldl boxStep ⟨⊤, ⊥, ⊤, ⊥⟩

/-- True if `(rho, z)` is within the bounding box of the data set,
`RateTable2D::Inside`. -/
def Inside (mPoints : List (RatePoint α)) (rho z : α) : Bool :=
  if mPoints.isEmpty then false
  else
    let b := mPoints.foldl boxStep ⟨⊤, ⊥, ⊤, ⊥⟩
    decide ((rho : WithTop α) ≥ b.minRho ∧ (rho : WithBot α) ≤ b.maxRho
      ∧ (z : WithTop α) ≥ b.minZ ∧ (z : WithBot α) ≤ b.maxZ)

/-- Position returned by `std::lower_bound` on a sorted range: the first
element that is not less than `v` (the length when there is none). -/
def lowerBound (l : List α) (v : α) : Nat :=
  (l.takeWhile (fun x => decide (x < v))).length

/-- Tolerance of the corner search, `1e-12`. -/
def cornerTol : α := 1 / 10 ^ 12

/-- Test of the corner loop: the point matches one of the corners
`(r1,z1)`, `(r2,z1)`, `(r1,z2)`, `(r2,z2)`; a matching point is pushed once
(`continue`). -/
def isCorner (r1 r2 z1 z2 : α) (pt : RatePoint α) : Bool :=
  (decide (|pt.rho - r1| < cornerTol) && decide (|pt.z - z1| < cornerTol))
  || (decide (|pt.rho - r2| < cornerTol) && decide (|pt.z - z1| < cornerTol))
  || (decide (|pt.rho - r1| < cornerTol) && decide (|pt.z - z2| < cornerTol))
  || (decide (|pt.rho - r2| < cornerTol) && decide (|pt.z - z2| < cornerTol))

/-- Four corners of a rectangle enclosing the point,
`RateTable2D::FindBilinearNeighbors`: `some neighbors` when the function
returns true (then `found == 4`), `none` when it returns false. -/
def FindBilinearNeighbors (mPoints : List (RatePoint α)) (rho z : α) :
    Option (List (RatePoint α)) :=
  let rho_vals := (mPoints.map (fun pt => pt.rho)).insertionSort (· ≤ ·)
  let z_vals := (mPoints.map (fun pt => pt.z)).insertionSort (· ≤ ·)
  let it_rho := lowerBound rho_vals rho
  let it_z := lowerBound z_vals z
  if it_rho = 0 ∨ it_rho = rho_vals.length then none
  else if it_z = 0 ∨ it_z = z_vals.length then none
  else
    let r1 := rho_vals.getD (it_rho - 1) 0
    let r2 := rho_vals.getD it_rho 0
    let z1 := z_vals.getD (it_z - 1) 0
    let z2 := z_vals.getD it_z 0
    let neighbors := mPoints.filter (isCorner r1 r2 z1 z2)
    if neighbors.length = 4 then some neighbors else none

/-- Bilinear interpolation on the rectangle of four values,
`RateTable2D::BilinearInterp`; reads `N[0]` .. `N[3]`. -/
def BilinearInterp (N : List (RatePoint α)) (rho z : α) : α :=
  match N with
  | n0 :: n1 :: n2 :: n3 :: _ =>
    let x1 := n0.rho
    let x2 := n1.rho
    let y1 := n0.z
    let y2 := n2.z
    let f11 := n0.rate
    let f21 := n1.rate
    let f12 := n2.rate
    let f22 := n3.rate
    let denom := (x2 - x1) * (y2 - y1)
    if denom = 0 then (1 / 2) * (f11 + f22)
    else
      let a := (x2 - rho) * (y2 - z) / denom
      let b := (rho - x1) * (y2 - z) / denom
      let c := (x2 - rho) * (z - y1) / denom
      let d := (rho - x1) * (z - y1) / denom
      a * f11 + b * f21 + c * f12 + d * f22
  | _ => 0

/-- One iteration of the nearest-neighbour loop of `Interp`; the state is
`(minDist2, bestValue)`. -/
def nearestStep (rho z : α) (acc : WithTop α × α) (pt : RatePoint α) : WithTop α × α :=
  let drho := pt.rho - rho
  let dz := pt.z - z
  let dist2 := drho * drho + dz * dz
  if (dist2 : WithTop α) < acc.1 then ((dist2 : WithTop α), pt.rate) else acc

/-- Bilinear interpolation if possible, else nearest neighbour,
`RateTable2D::Interp`. -/
def Interp (mPoints : List (RatePoint α)) (rho z : α) : α :=
  match FindBilinearNeighbors mPoints rho z with
  | some neighbors => BilinearInterp neighbors rho z
  | none => (mPoints.foldl (nearestStep rho z) (⊤, 0)).2

/-- Table with a repeated coordinate pair. -/
def tableRepeated : List (RatePoint ℚ) := [⟨0, 0, 1⟩, ⟨0, 0, 2⟩]

/-- Unit square loaded row by row (rho varies fastest). -/
def tableRowMajor : List (RatePoint ℚ) := [⟨0, 0, 5⟩, ⟨1, 0, 7⟩, ⟨0, 1, 9⟩, ⟨1, 1, 11⟩]

/-- Unit square loaded column by column (z varies fastest). -/
def tableColMajor : List (RatePoint ℚ) := [⟨0, 0, 5⟩, ⟨0, 1, 9⟩, ⟨1, 0, 7⟩, ⟨1, 1, 11⟩]

/-- Unit square loaded in the order `(0,0)`, `(0,1)`, `(1,1)`, `(1,0)`. -/
def tableRing : List (RatePoint ℚ) := [⟨0, 0, 5⟩, ⟨0, 1, 9⟩, ⟨1, 1, 11⟩, ⟨1, 0, 7⟩]

/-- Four points stacked at `(0,0)` and two more points that supply the
bracketing values `r2 = 1` and `z2 = 5` without lying on a corner. -/
def tableStack : List (RatePoint ℚ) :=
  [⟨0, 0, 1⟩, ⟨0, 0, 2⟩, ⟨0, 0, 3⟩, ⟨0, 0, 4⟩, ⟨1, 7, 50⟩, ⟨3, 5, 60⟩]

/-- Three points at distances 2, 1 and 1 from the origin along the z axis. -/
def tableLine : List (RatePoint ℚ) := [⟨0, 2, 3⟩, ⟨0, 1, 4⟩, ⟨0, -1, 6⟩]

/-- Squared Euclidean distance of a loaded point to the query. -/
def dist2 {α : Type} [LinearOrderedField α] (rho z : α) (pt : RatePoint α) : α :=
  (pt.rho - rho) * (pt.rho - rho) + (pt.z - z) * (pt.z - z)

/-- Four points of which the first two lie within the corner tolerance of
each other in rho (`1` and `1 + 1e-13`); no point lies at `(3, 0)`. -/
def tableNear (α : Type) [LinearOrderedField α] : List (RatePoint α) :=
  [⟨1, 0, 1⟩, ⟨1 + 1 / 10 ^ 13, 0, 0⟩, ⟨1 + 1 / 10 ^ 13, 1, 0⟩, ⟨3, 1, 0⟩]

/-- Unit square in corner order with the last corner loaded twice. -/
def tableExtra : List (RatePoint ℚ) :=
  [⟨0, 0, 5⟩, ⟨1, 0, 7⟩, ⟨0, 1, 9⟩, ⟨1, 1, 11⟩, ⟨1, 1, 11⟩]

/-- The line after `std::replace(line.begin(), line.end(), delim, ' ')`. -/
def replaceDelim (line : String) (delim : Char) : String :=
  line.map (fun c => if c = delim then ' ' else c)

/-- Test `line.empty() || line[0] == '#'` of the constructor loop. -/
def skipLine (line : String) : Bool :=
  decide (line = "") || decide (line.get 0 = '#')

/-- Body of the loop `while (std::getline(fin, line))` of the constructor:
the point list after the line has been processed.  `extract` stands for the
stream extraction `iss >> r >> z >> w` of the C++ library on the line: the
three numbers when it succeeds. -/
def loadLine (extract : String → Option (RatePoint α)) (delim : Char)
    (mPoints : List (RatePoint α)) (line : String) : List (RatePoint α) :=
  if skipLine line then mPoints
  else
    match extract (replaceDelim line delim) with
    | some pt => mPoints ++ [pt]
    | none => mPoints

/-- Constructor `RateTable2D::RateTable2D(filename, delim)`.  The file is
`none` when it cannot be opened, else the lines that `std::getline` delivers;
the result is the point list, or the message of the exception thrown. -/
def construct (extract : String → Option (RatePoint α)) (file : Option (List String))
    (delim : Char) : Except String (List (RatePoint α)) :=
  match file with
  | none => Except.error "RateTable2D: cannot open file"
  | some lines =>
    let mPoints := lines.foldl (loadLine extract delim) []
    if mPoints.isEmpty then Except.error "RateTable2D: no data loaded from file."
    else Except.ok mPoints

/-- The sequence of the specification: in file order, the triples of the lines
that are non-empty, do not start with `#`, and whose first three fields
(delimiter replaced by a space) are extracted as numbers. -/
def specLoaded (extract : String → Option (RatePoint α)) (lines : List String)
    (delim : Char) : List (RatePoint α) :=
  lines.filterMap (fun line =>
    if line ≠ "" ∧ line.get 0 ≠ '#' then extract (replaceDelim line delim) else none)

/-- A stand-in for the stream extraction, for concrete lines of the form
`"a b c"` with one-digit fields: the three digits as numbers. -/
def extractDigits (line : String) : Option (RatePoint ℚ) :=
  match line.data with
  | [a, ' ', b, ' ', c] =>
    if a.isDigit ∧ b.isDigit ∧ c.isDigit then
      some ⟨(a.toNat - 48 : Nat), (b.toNat - 48 : Nat), (c.toNat - 48 : Nat)⟩
    else none
  | _ => none

end RateTable2D

namespace SteppingAction

/-! ## SteppingAction.cc -/

open RateTable2D

/-- Logical volume of the pre-step point, as far as the stepping action
tells them apart: the cone, the three shells, anything else. -/
inductive LogicalVolume where
  | cone
  | inShell
  | midShell
  | outShell
  | other
deriving DecidableEq, Repr

/-- Track status values (`G4TrackStatus`) that occur. -/
inductive TrackStatus where
  | fAlive
  | fStopAndKill
  | fKillTrackAndSecondaries
deriving DecidableEq, Repr

/-- Three-vector `G4ThreeVector`. -/
structure ThreeVector (α : Type) where
  x : α
  y : α
  z : α
deriving DecidableEq, Repr

/-- Cone metadata filled by the builder, `struct geom::ConeInfo`. -/
structure ConeInfo (α : Type) where
  baseCentre : ThreeVector α
  panelIdx : Int
  ix : Int
  iy : Int
deriving DecidableEq, Repr

/-- Per-track helper in the user information, `struct ShellSegment`. -/
structure ShellSegment (α : Type) where
  entryPos : ThreeVector α
  entryTime : α
  inside : Bool
  lastInsidePos : ThreeVector α
  coneIdx : Int
deriving DecidableEq, Repr

/-- What `UserSteppingAction` reads from the `G4Step` and its track. -/
structure G4Step (α : Type) where
  /-- Value of `track->GetDefinition() == MuAlpha5p::Definition()`. -/
  isMuAlpha : Bool
  /-- Logical volume of the pre-step touchable. -/
  lv : LogicalVolume
  /-- Copy number of the pre-step volume, `GetCopyNo()`. -/
  copyNo : Int
  /-- Value of `track->GetPosition()` [mm]. -/
  position : ThreeVector α
  /-- Value of `track->GetGlobalTime()`. -/
  globalTime : α
deriving DecidableEq, Repr

/-- Read-only surroundings of the stepping action: the cone list of the
detector, the rate table, the C library functions and the sequence of values
that `G4UniformRand()` returns on this worker. -/
structure Env (α : Type) where
  conesInfo : List (ConeInfo α)
  table : List (RatePoint α)
  hypot : α → α → α
  exp : α → α
  uniform : Nat → α

/-- Everything `UserSteppingAction` may write: the track, the thread-local
event flags, the accumulables of the worker's `RunAction`, and the number of
random values drawn so far. -/
structure State (α : Type) where
  trackStatus : TrackStatus
  stepLength : α
  userInfo : Option (ShellSegment α)
  gEventCaptureOccurred : Bool
  gEventIonizationOccurred : Bool
  coneIon : List Nat
  coneCap : List Nat
  panelIon : List Nat
  panelCap : List Nat
  rngDraws : Nat
deriving DecidableEq, Repr

variable {α : Type} [LinearOrderedField α]

/-- Number of values of an `unsigned` counter (32 bit). -/
def UINT_MOD : Nat := 2 ^ 32

/-- Subscript `v[i]` of a vector with an `int` index. -/
def subscript {β : Type} (v : List β) (i : Int) : Option β :=
  if i < 0 then none else v[i.toNat]?

/-- Statement `v[i] += 1` on a vector of `G4Accumulable<unsigned>`. -/
def increment (v : List Nat) (i : Int) : Option (List Nat) :=
  match subscript v i with
  | some c => some (v.set i.toNat ((c + 1) % UINT_MOD))
  | none => none

/-- A freshly constructed `ShellSegment`. -/
def ShellSegment.fresh : ShellSegment α :=
  { entryPos := ⟨0, 0, 0⟩, entryTime := 0, inside := false
    lastInsidePos := ⟨0, 0, 0⟩, coneIdx := -1 }

/-- Product `v * c` of a vector and a scalar. -/
def ThreeVector.scale (v : ThreeVector α) (c : α) : ThreeVector α :=
  ⟨v.x * c, v.y * c, v.z * c⟩

/-- Sum of two vectors. -/
def ThreeVector.add (v w : ThreeVector α) : ThreeVector α :=
  ⟨v.x + w.x, v.y + w.y, v.z + w.z⟩

/-- Difference of two vectors. -/
def ThreeVector.sub (v w : ThreeVector α) : ThreeVector α :=
  ⟨v.x - w.x, v.y - w.y, v.z - w.z⟩

/-- Number of mid-points of the rate integral, `constexpr int N = 20`. -/
def N : Nat := 20

/-- Cone-local coordinates `(ρ, z)` of the mid-point with index `i` on the
segment from `P0` to `P1`, as computed in the sampling loop of case 3. -/
def samplePoint (env : Env α) (C P0 P1 : ThreeVector α) (i : Nat) : α × α :=
  let s := ((i : α) + 1 / 2) / (N : α)
  let P := P0.add ((P1.sub P0).scale s)
  let ρ := env.hypot (P.x - C.x) (P.y - C.y)
  let z := P.z - C.z
  (ρ, z)

/-- Body of the sampling loop of case 3 for the index `i`: the running sum
after the iteration. -/
def sampleStep (env : Env α) (C P0 P1 : ThreeVector α) (sum : α) (i : Nat) : α :=
  let q := samplePoint env C P0 P1 i
  if Inside env.table q.1 q.2 then sum + Interp env.table q.1 q.2 else sum

/-- Value of `sumλ` after the sampling loop `for (int i = 0; i < N; ++i)`. -/
def sumLambda (env : Env α) (C P0 P1 : ThreeVector α) : α :=
  (List.range N).foldl (sampleStep env C P0 P1) 0

/-- Probability `Pint` of case 3 for the record `info`, the cone `ci` of the
record and the exit step `step`. -/
def Pint (env : Env α) (ci : ConeInfo α) (info : ShellSegment α) (step : G4Step α) : α :=
  let C := ci.baseCentre
  let P0 := info.entryPos.scale (1 / 1000)
  let P1 := step.position.scale (1 / 1000)
  let T0 := info.entryTime
  let T1 := step.globalTime
  let dt := (T1 - T0) / (N : α)
  1 - env.exp (-(sumLambda env C P0 P1) * dt)

/-- Per-step hook `SteppingAction::UserSteppingAction`.  The result is `none`
when a vector is subscripted outside its range. -/
def UserSteppingAction (env : Env α) (s : State α) (step : G4Step α) : Option (State α) :=
  if !step.isMuAlpha then some s
  else if step.lv = LogicalVolume.cone then
    match increment s.coneCap step.copyNo, subscript env.conesInfo step.copyNo with
    | some coneCap, some ci =>
      match increment s.panelCap ci.panelIdx with
      | some panelCap =>
        some { s with gEventCaptureOccurred := true, coneCap := coneCap
                      panelCap := panelCap, trackStatus := TrackStatus.fStopAndKill }
      | none => none
    | _, _ => none
  else
    let info : ShellSegment α := s.userInfo.getD ShellSegment.fresh
    let inShell : Bool := decide (step.lv = LogicalVolume.inShell)
      || decide (step.lv = LogicalVolume.midShell)
      || decide (step.lv = LogicalVolume.outShell)
    if inShell && !info.inside then
      some { s with userInfo := some { info with inside := true, entryPos := step.position
                                                 entryTime := step.globalTime
                                                 coneIdx := step.copyNo
                                                 lastInsidePos := step.position } }
    else if inShell && info.inside then
      some { s with userInfo := some { info with lastInsidePos := step.position } }
    else if !inShell && info.inside then
      match subscript env.conesInfo info.coneIdx with
      | some ci =>
        let P := Pint env ci info step
        let s1 : State α := { s with userInfo := some { info with inside := false }
                                     rngDraws := s.rngDraws + 1 }
        if env.uniform s.rngDraws < P then
          match increment s.coneIon info.coneIdx, increment s.panelIon ci.panelIdx with
          | some coneIon, some panelIon =>
            some { s1 with stepLength := 0
                           trackStatus := TrackStatus.fKillTrackAndSecondaries
                           gEventIonizationOccurred := true
                           coneIon := coneIon, panelIon := panelIon }
          | _, _ => none
        else some s1
      | none => none
    else some { s with userInfo := some info }

/-- Worker surroundings over the reals: one cone with base centre at the
origin, a two-point table of constant rate 1 on the unit square, the real
exponential and Euclidean norm, and a random sequence that returns 0. -/
noncomputable def envUnit : Env ℝ :=
  { conesInfo := [⟨⟨0, 0, 0⟩, 0, 0, 0⟩]
    table := [⟨0, 0, 1⟩, ⟨1, 1, 1⟩]
    hypot := fun x y => Real.sqrt (x * x + y * y)
    exp := Real.exp
    uniform := fun _ => 0 }

/-- Transit record of a particle that entered the shell of cone 0 at the
origin at time 0 and was last seen inside at the origin. -/
def infoInside : ShellSegment ℝ :=
  { entryPos := ⟨0, 0, 0⟩, entryTime := 0, inside := true
    lastInsidePos := ⟨0, 0, 0⟩, coneIdx := 0 }

/-- Worker state with one cone, one panel, all counters zero and the record
`infoInside`. -/
def stateInside : State ℝ :=
  { trackStatus := TrackStatus.fAlive, stepLength := 1, userInfo := some infoInside
    gEventCaptureOccurred := false, gEventIonizationOccurred := false
    coneIon := [0], coneCap := [0], panelIon := [0], panelCap := [0], rngDraws := 0 }

/-- Step at time 1 with the track at the origin and pre-step volume `lv`. -/
def stepAtOrigin (lv : LogicalVolume) : G4Step ℝ :=
  { isMuAlpha := true, lv := lv, copyNo := 0, position := ⟨0, 0, 0⟩, globalTime := 1 }

/-- Step at time 1 outside cone and shells with the track one metre below
the base plane. -/
def stepBelow : G4Step ℝ :=
  { isMuAlpha := true, lv := LogicalVolume.other, copyNo := 0
    position := ⟨0, 0, -1000⟩, globalTime := 1 }

/-- Sample point `Q_i = P0 + ((i + 0.5)/20)(P1 - P0)` of the specification. -/
def specSamplePoint (P0 P1 : ThreeVector α) (i : Nat) : ThreeVector α :=
  ⟨P0.x + (((i : α) + 1 / 2) / 20) * (P1.x - P0.x),
   P0.y + (((i : α) + 1 / 2) / 20) * (P1.y - P0.y),
   P0.z + (((i : α) + 1 / 2) / 20) * (P1.z - P0.z)⟩

/-- Contribution of a sample point `Q` as the specification words it: with
`rho` the horizontal distance of `Q` from the base centre `C` and `z` the
height of `Q` above it, `Interp(rho, z)` if `Inside(rho, z)` and 0 otherwise. -/
def specContribution (env : Env α) (C Q : ThreeVector α) : α :=
  if Inside env.table (env.hypot (Q.x - C.x) (Q.y - C.y)) (Q.z - C.z)
  then Interp env.table (env.hypot (Q.x - C.x) (Q.y - C.y)) (Q.z - C.z)
  else 0

/-- Ionisation probability as the specification words it:
`1 - exp(-S * (T1 - T0) / 20)` with `S` the sum of the contributions of the
20 sample points. -/
def specProbability (env : Env α) (C P0 P1 : ThreeVector α) (T0 T1 : α) : α :=
  1 - env.exp (-(∑ i in Finset.range 20, specContribution env C (specSamplePoint P0 P1 i))
    * (T1 - T0) / 20)

/-- The surroundings `envUnit` with every rate of the table set to 0. -/
noncomputable def envZero : Env ℝ :=
  { envUnit with table := [⟨0, 0, 0⟩, ⟨1, 1, 0⟩] }

/-- Transit record of `infoInside` after the shell has been left. -/
def infoOutside : ShellSegment ℝ := { infoInside with inside := false }

/-- Worker state of `stateInside` with the record `infoOutside`. -/
def stateOutside : State ℝ := { stateInside with userInfo := some infoOutside }

/-- Step at time 3 in a shell of cone 5 with the track at `(1, 2, 3)`. -/
def stepInShell (lv : LogicalVolume) : G4Step ℝ :=
  { isMuAlpha := true, lv := lv, copyNo := 5, position := ⟨1, 2, 3⟩, globalTime := 3 }

/-- The surroundings `envUnit` with the rate table `tableNear`, whose rates
are 1, 0, 0, 0. -/
noncomputable def envNear : Env ℝ :=
  { envUnit with table := tableNear ℝ }

/-- Transit record of a particle that entered the shell of cone 0 at
`(2000, 0, 500)` mm at time 0. -/
def infoNear : ShellSegment ℝ :=
  { entryPos := ⟨2000, 0, 500⟩, entryTime := 0, inside := true
    lastInsidePos := ⟨2000, 0, 500⟩, coneIdx := 0 }

/-- Step at time 1 outside cone and shells with the track at
`(2000, 0, 500)` mm. -/
def stepNear : G4Step ℝ :=
  { isMuAlpha := true, lv := LogicalVolume.other, copyNo := 0
    position := ⟨2000, 0, 500⟩, globalTime := 1 }

/-- Sum of the per-cone counters `counts` over the cones whose `ConeInfo`
names the panel `p`. -/
def panelSum {α : Type} (infos : List (ConeInfo α)) (counts : List Nat) (p : Int) : Nat :=
  (((infos.zip counts).filter (fun x => decide (x.1.panelIdx = p))).map (fun x => x.2)).sum

/-- What happens on a worker between the start and the end of a run, as far
as the tallies are concerned: a call of `UserSteppingAction`, or the kernel
turning to another track or event, which replaces the track fields and the
event flags and leaves the accumulables alone. -/
inductive WorkerEvent (α : Type) where
  | step (st : G4Step α)
  | nextTrack (status : TrackStatus) (stepLength : α) (userInfo : Option (ShellSegment α))
      (captureOccurred ionizationOccurred : Bool)

/-- Effect of one worker event on the state. -/
def WorkerEvent.apply (env : Env α) (s : State α) : WorkerEvent α → Option (State α)
  | WorkerEvent.step st => UserSteppingAction env s st
  | WorkerEvent.nextTrack status len info cap ion =>
    some { s with trackStatus := status, stepLength := len, userInfo := info
                  gEventCaptureOccurred := cap, gEventIonizationOccurred := ion }

/-- The worker state after a sequence of events; `none` when a vector is
subscripted outside its range on the way. -/
def runWorker (env : Env α) : State α → List (WorkerEvent α) → Option (State α)
  | s, [] => some s
  | s, e :: es => (e.apply env s).bind (fun t => runWorker env t es)

/-- The paired update of a per-cone and a per-panel counter vector made by one
capture or one ionization: the counter of a cone `j` and the counter of the
panel named by the `ConeInfo` of `j` are both incremented. -/
def Bump {β : Type} (infos : List (ConeInfo β)) (cone panel cone2 panel2 : List Nat) : Prop :=
  ∃ (j q c d : Nat) (ci : ConeInfo β), infos[j]? = some ci ∧ cone[j]? = some c ∧
    ci.panelIdx = (q : Int) ∧ panel[q]? = some d ∧
    cone2 = cone.set j ((c + 1) % UINT_MOD) ∧ panel2 = panel.set q ((d + 1) % UINT_MOD)

/-- Consistency of a per-cone counter vector with a per-panel one. -/
def PairInv {β : Type} (infos : List (ConeInfo β)) (cone panel : List Nat) : Prop :=
  cone.sum = panel.sum ∧ ∀ p : Nat, (panel[p]?).getD 0 = panelSum infos cone (p : Int)

/-- Consistency of the four counter vectors of a worker. -/
def TallyInv (env : Env α) (s : State α) : Prop :=
  PairInv env.conesInfo s.coneCap s.panelCap ∧ PairInv env.conesInfo s.coneIon s.panelIon

/-- No counter wrapped around between the states `s` and `t` of one event:
none of the four sums went down.  The `unsigned` increment of a counter that
holds `2^32 - 1` gives 0 and lowers the sum of its vector; every other
increment raises it by 1. -/
def NoWrapStep (s t : State α) : Prop :=
  s.coneCap.sum ≤ t.coneCap.sum ∧ s.panelCap.sum ≤ t.panelCap.sum ∧
  s.coneIon.sum ≤ t.coneIon.sum ∧ s.panelIon.sum ≤ t.panelIon.sum

/-- No counter wraps around in the run of the events from the state `s`. -/
def NoWrap (env : Env α) : State α → List (WorkerEvent α) → Prop
  | _, [] => True
  | s, e :: es =>
    match e.apply env s with
    | some t => NoWrapStep s t ∧ NoWrap env t es
    | none => True

/-- Worker state of `stateInside` after the capture in cone 0. -/
def stateCaptured : State ℝ :=
  { stateInside with gEventCaptureOccurred := true, coneCap := [1], panelCap := [1]
                     trackStatus := TrackStatus.fStopAndKill }

end SteppingAction

namespace RunAction

/-! ## RunAction.cc: tallies of the workers and their merge -/

open SteppingAction

/-- A worker's counter vector at the start of the run: `n` accumulables, all
zero (`coneCap_(nCones_)` and the reset in `BeginOfRunAction`). -/
def zeroCounters (n : Nat) : List Nat := List.replicate n 0

/-- The statement `ConeCap(i) += 1` executed `K` times on a worker's
counters. -/
def incrementTimes (v : List Nat) (i : Int) : Nat → Option (List Nat)
  | 0 => some v
  | K + 1 => (incrementTimes v i K).bind (fun w => increment w i)

/-- Modelled from the spec: the merge of one accumulable vector into the
global one, `G4AccumulableManager::Merge` called by
`RunAction::EndOfRunAction`; the merge itself is Geant4 library code and not
part of the sources.  "Elementwise sum of every worker's counters into one
global result"; the counters are `unsigned`, so each sum is taken modulo
`2^32`. -/
def mergeInto (global worker : List Nat) : List Nat :=
  List.zipWith (fun g w => (g + w) % UINT_MOD) global worker

/-- Modelled from the spec: the global tally after the merge of all workers,
starting from the all-zero global counters. -/
def mergeAll (n : Nat) (workers : List (List Nat)) : List Nat :=
  workers.foldl mergeInto (zeroCounters n)

/-! ## RunAction.cc: run summary -/

open geom SteppingAction

/-- Modulus of `unsigned long` (64 bits on the LP64 platforms Geant4 runs
on). -/
def ULONG_MOD : Nat := 2 ^ 64

/-- The data members of `RunAction` that hold the tallies: the two sizes and
the values of the four vectors of accumulables. -/
structure Members where
  nCones_ : Nat
  nPanels_ : Nat
  coneIon_ : List Nat
  coneCap_ : List Nat
  panelIon_ : List Nat
  panelCap_ : List Nat
deriving DecidableEq, Repr

/-- Member initialisers of the constructor `RunAction::RunAction`. -/
def ctor {α : Type} (cfg : GeometryConfig α) : Members :=
  { nCones_ := cfg.nCones
    nPanels_ := cfg.nPanels
    coneIon_ := zeroCounters cfg.nCones
    coneCap_ := zeroCounters cfg.nCones
    panelIon_ := zeroCounters cfg.nPanels
    panelCap_ := zeroCounters cfg.nPanels }

/-- The members once the accumulables hold new values.  The operations on a
`G4Accumulable` (`operator+=`, `Reset()`, `Merge()`) change the value it holds
and never the vector it sits in: every vector keeps the size it has in `r`,
and its accumulable `i` holds the value given for the index `i`. -/
def Members.withValues (r : Members) (ion cap panelIon panelCap : Nat → Nat) : Members :=
  { r with coneIon_ := (List.range r.coneIon_.length).map ion
           coneCap_ := (List.range r.coneCap_.length).map cap
           panelIon_ := (List.range r.panelIon_.length).map panelIon
           panelCap_ := (List.range r.panelCap_.length).map panelCap }

/-- Arguments of `DataLogger::DumpRunSummary` after the configuration. -/
structure RunSummary where
  nEvents : Nat
  totalIon : Nat
  totalCap : Nat
  coneIon : List Nat
  coneCap : List Nat
  panelIon : List Nat
  panelCap : List Nat
deriving DecidableEq, Repr

/-- Body of the first loop of `EndOfRunAction`; the state is
`(coneIon, coneCap, totalIon, totalCap)`. -/
def coneLoopStep (r : Members) (st : Option (List Nat × List Nat × Nat × Nat)) (i : Nat) :
    Option (List Nat × List Nat × Nat × Nat) :=
  st.bind (fun s =>
    (r.coneIon_[i]?).bind (fun vi =>
      (r.coneCap_[i]?).bind (fun vc =>
        if i < s.1.length ∧ i < s.2.1.length then
          some (s.1.set i vi, s.2.1.set i vc,
                (s.2.2.1 + vi) % ULONG_MOD, (s.2.2.2 + vc) % ULONG_MOD)
        else none)))

/-- Body of the second loop of `EndOfRunAction`; the state is
`(panelIon, panelCap)`. -/
def panelLoopStep (r : Members) (st : Option (List Nat × List Nat)) (i : Nat) :
    Option (List Nat × List Nat) :=
  st.bind (fun s =>
    (r.panelIon_[i]?).bind (fun vi =>
      (r.panelCap_[i]?).bind (fun vc =>
        if i < s.1.length ∧ i < s.2.length then some (s.1.set i vi, s.2.set i vc)
        else none)))

/-- The summary that `RunAction::EndOfRunAction` hands to
`DataLogger::DumpRunSummary` on the master, where `r` holds the values of the
accumulables after `Merge()` and `nEvents` is `run->GetNumberOfEvent()`. -/
def EndOfRunAction (r : Members) (nEvents : Nat) : Option RunSummary :=
  ((List.range r.nCones_).foldl (coneLoopStep r)
      (some (zeroCounters r.nCones_, zeroCounters r.nCones_, 0, 0))).bind (fun c =>
    ((List.range r.nPanels_).foldl (panelLoopStep r)
        (some (zeroCounters r.nPanels_, zeroCounters r.nPanels_))).bind (fun p =>
      some { nEvents := nEvents, totalIon := c.2.2.1, totalCap := c.2.2.2,
             coneIon := c.1, coneCap := c.2.1, panelIon := p.1, panelCap := p.2 }))

end RunAction

namespace ConeCombBuilder

/-! ## ConeCombBuilder.cc -/

open geom SteppingAction

variable {α : Type} [LinearOrderedField α]

/-- Length unit `CLHEP::nm` in the internal units of Geant4 (millimetre = 1). -/
def nm : α := 1 / 10 ^ 6

/-- One cone placed by `placePanel`: the copy number and position of its
`G4PVPlacement` (the three shells are placed at the same position with the
same copy number) and the `ConeInfo` entry appended to `gConesInfo`. -/
structure PlacedCone (α : Type) where
  copyNo : Int
  position : ThreeVector α
  info : ConeInfo α
deriving DecidableEq, Repr

/-- Body of the double loop of `placePanel` for the indices `ix`, `iy`.  The
`int` expression of the copy number is reduced to 32 bits once, at the end. -/
def placeCone (cfg : GeometryConfig α) (ps : PanelSpec α) (panelIdx : Int) (ix iy : Nat) :
    PlacedCone α :=
  let pitch := ps.pitch_nm * nm
  let x0 := ps.x0_nm * nm
  let hCone := cfg.cone.h_cone_nm * nm
  let y0 := ps.offset_nm.y_nm * nm
  let z0 := ps.offset_nm.z_nm * nm
  let x := x0 + ((ix : α) - (1 / 2) * ((wrapInt32 (ps.nx - 1) : Int) : α)) * pitch
  let y := y0 + ((iy : α) - (1 / 2) * ((wrapInt32 (ps.ny - 1) : Int) : α)) * pitch
  let z := z0 + (1 / 2) * hCone
  let baseCopy := wrapInt32 (panelIdx * ps.nx * ps.ny + (ix : Int) * ps.ny + (iy : Int))
  { copyNo := baseCopy
    position := ⟨x, y, z⟩
    info := ⟨⟨(1 / 1000) * x, (1 / 1000) * y, (1 / 1000) * z0⟩, panelIdx, ix, iy⟩ }

/-- The cones placed by `ConeCombBuilder::placePanel`, in the order of the
loops `for ix < nx`, `for iy < ny`. -/
def placePanel (cfg : GeometryConfig α) (ps : PanelSpec α) (panelIdx : Int) :
    List (PlacedCone α) :=
  (List.range ps.nx.toNat).flatMap (fun ix =>
    (List.range ps.ny.toNat).map (fun iy => placeCone cfg ps panelIdx ix iy))

/-- The cones placed by `ConeCombBuilder::Build`: panel `i` is placed with
`panelIdx = static_cast<int>(i)`. -/
def Build (cfg : GeometryConfig α) : List (PlacedCone α) :=
  cfg.panels.enum.flatMap (fun ip => placePanel cfg ip.2 (wrapInt32 (ip.1 : Int)))

/-- The list `gConesInfo` after `Build`. -/
def GetConesInfo (cfg : GeometryConfig α) : List (ConeInfo α) :=
  (Build cfg).map (fun c => c.info)

/-- The hard-wired default geometry of `main.cc` (`makeDefaultConfig`). -/
def cfgDefault : GeometryConfig ℚ :=
  ⟨⟨1 / 2, 10, 1000⟩, 50, 60, 75,
    [⟨2, 6, 150, -1200, ⟨0, 0, -150⟩⟩, ⟨2, 6, 150, -800, ⟨0, 0, -100⟩⟩,
     ⟨2, 6, 150, -400, ⟨0, 0, -50⟩⟩, ⟨2, 6, 150, 0, ⟨0, 0, 0⟩⟩,
     ⟨2, 6, 150, 400, ⟨0, 0, 50⟩⟩, ⟨2, 6, 150, 800, ⟨0, 0, 100⟩⟩,
     ⟨2, 6, 150, 1200, ⟨0, 0, 150⟩⟩]⟩

/-- One 1 x 1 panel whose first cone sits at `x0 = 5000` nm. -/
def cfgFar : GeometryConfig ℚ :=
  ⟨⟨1 / 2, 10, 1000⟩, 50, 60, 75, [⟨1, 1, 150, 5000, ⟨0, 0, 0⟩⟩]⟩

end ConeCombBuilder

namespace DetectorConstruction

/-! ## DetectorConstruction.cc -/

open geom ConeCombBuilder

variable {α : Type} [LinearOrderedField α]

/-- Body of the loop of `Construct` over the panels; the state is
`(maxX_nm, maxY_nm, maxZ_nm)`. -/
def worldStep (cfg : GeometryConfig α) (m : α × α × α) (p : PanelSpec α) : α × α × α :=
  let halfSpanX := (1 / 2) * ((wrapInt32 (p.nx - 1) : Int) : α) * p.pitch_nm + cfg.cone.r_base_nm
  let halfSpanY := (1 / 2) * ((wrapInt32 (p.ny - 1) : Int) : α) * p.pitch_nm + cfg.cone.r_base_nm
  (max m.1 (|p.offset_nm.x_nm| + halfSpanX),
   max m.2.1 (|p.offset_nm.y_nm| + halfSpanY),
   max m.2.2 (cfg.cone.h_cone_nm + cfg.gap_nm))

/-- World half-extents `(xWorld, yWorld, zWorld)` computed by
`DetectorConstruction::Construct`. -/
def worldHalfExtents (cfg : GeometryConfig α) : α × α × α :=
  let m := cfg.panels.foldl (worldStep cfg) (0, 0, 0)
  ((m.1 + 2 * cfg.cone.h_cone_nm) * nm,
   (m.2.1 + 2 * cfg.cone.h_cone_nm) * nm,
   (m.2.2 + cfg.cone.h_cone_nm) * nm)

end DetectorConstruction

/-! # Theorems -/

namespace geom

/-! ## Flattened cone index -/

variable {α : Type}

theorem PanelSpec.nCones_of_fits (p : PanelSpec α) (h : p.Fits) : p.nCones = p.cells := by
  obtain ⟨hx, hy, hxy⟩ := h
  have h0 : 0 < p.nx * p.ny := Int.mul_pos hx hy
  unfold PanelSpec.nCones PanelSpec.cells toSizeT wrapInt32
  unfold INT_MAX at hxy
  generalize p.nx * p.ny = v at *
  omega

theorem PanelSpec.toSizeT_nx_of_fits (p : PanelSpec α) (h : p.Fits) :
    toSizeT p.nx = p.nx.toNat ∧ 0 < p.nx.toNat ∧ p.cells = p.nx.toNat * p.ny.toNat := by
  obtain ⟨hx, hy, hxy⟩ := h
  have h1 : p.nx ≤ p.nx * p.ny := le_mul_of_one_le_right hx.le hy
  unfold INT_MAX at hxy
  refine ⟨?_, ?_, ?_⟩
  · unfold toSizeT; omega
  · omega
  · unfold PanelSpec.cells
    have h : ((p.nx * p.ny).toNat : Int) = ((p.nx.toNat * p.ny.toNat : Nat) : Int) := by
      rw [Int.toNat_of_nonneg (Int.mul_nonneg hx.le hy.le), Nat.cast_mul,
        Int.toNat_of_nonneg hx.le, Int.toNat_of_nonneg hy.le]
    exact_mod_cast h

theorem foldl_nCones (ps : List (PanelSpec α)) (hfit : ∀ p ∈ ps, p.Fits) (init : Nat)
    (hsz : init + (ps.map PanelSpec.cells).sum < SIZE_MOD) :
    ps.foldl (fun total p => (total + p.nCones) % SIZE_MOD) init
      = init + (ps.map PanelSpec.cells).sum := by
  induction ps generalizing init with
  | nil => simp
  | cons p ps ih =>
    have hp : p.nCones = p.cells := p.nCones_of_fits (hfit p (List.mem_cons_self _ _))
    simp only [List.foldl_cons, List.map_cons, List.sum_cons] at hsz ⊢
    rw [hp, Nat.mod_eq_of_lt (by omega), ih (fun q hq => hfit q (List.mem_cons_of_mem _ hq)) _ (by omega)]
    omega

theorem coneWalk_of_offset (ps : List (PanelSpec α)) (hfit : ∀ p ∈ ps, p.Fits)
    (k running idx : Nat) (hsz : running + (ps.map PanelSpec.cells).sum < SIZE_MOD)
    (j : Nat) (p : PanelSpec α) (hj : ps[j]? = some p)
    (hlo : running + ((ps.take j).map PanelSpec.cells).sum ≤ idx)
    (hhi : idx < running + ((ps.take j).map PanelSpec.cells).sum + p.cells) :
    coneWalk ps k running idx
      = some ⟨p, k + j,
          (idx - (running + ((ps.take j).map PanelSpec.cells).sum)) % p.nx.toNat,
          (idx - (running + ((ps.take j).map PanelSpec.cells).sum)) / p.nx.toNat⟩ := by
  induction ps generalizing k running j with
  | nil => simp at hj
  | cons q ps ih =>
    have hq : q.Fits := hfit q (List.mem_cons_self _ _)
    have hqn : q.nCones = q.cells := q.nCones_of_fits hq
    simp only [List.map_cons, List.sum_cons] at hsz
    cases j with
    | zero =>
      simp only [List.getElem?_cons_zero, Option.some.injEq] at hj
      subst hj
      simp only [List.take_zero, List.map_nil, List.sum_nil, Nat.add_zero] at hlo hhi ⊢
      have hnx := (q.toSizeT_nx_of_fits hq).1
      unfold coneWalk
      simp only [hqn, hnx]
      rw [Nat.mod_eq_of_lt (by omega : running + q.cells < SIZE_MOD), if_pos hhi]
      have hloc : (idx + SIZE_MOD - running) % SIZE_MOD = idx - running := by
        have : idx + SIZE_MOD - running = (idx - running) + SIZE_MOD := by omega
        rw [this, Nat.add_mod_right, Nat.mod_eq_of_lt (by omega)]
      rw [hloc]
    | succ j =>
      simp only [List.getElem?_cons_succ] at hj
      simp only [List.take_succ_cons, List.map_cons, List.sum_cons] at hlo hhi ⊢
      unfold coneWalk
      simp only [hqn]
      rw [Nat.mod_eq_of_lt (by omega : running + q.cells < SIZE_MOD), if_neg (by omega)]
      rw [ih (fun r hr => hfit r (List.mem_cons_of_mem _ hr)) (k + 1) (running + q.cells)
        (by omega) j hj (by omega) (by omega)]
      have e1 : k + 1 + j = k + (j + 1) := by omega
      have e2 : running + q.cells + ((ps.take j).map PanelSpec.cells).sum
          = running + (q.cells + ((ps.take j).map PanelSpec.cells).sum) := by omega
      rw [e1, e2]

theorem exists_panel_of_lt (ps : List (PanelSpec α)) (running idx : Nat)
    (hlo : running ≤ idx) (hhi : idx < running + (ps.map PanelSpec.cells).sum) :
    ∃ j p, ps[j]? = some p ∧ running + ((ps.take j).map PanelSpec.cells).sum ≤ idx
      ∧ idx < running + ((ps.take j).map PanelSpec.cells).sum + p.cells := by
  induction ps generalizing running with
  | nil => simp at hhi; omega
  | cons q ps ih =>
    simp only [List.map_cons, List.sum_cons] at hhi
    by_cases h : idx < running + q.cells
    · exact ⟨0, q, by simp, by simpa using hlo, by simpa using h⟩
    · obtain ⟨j, p, hj, h1, h2⟩ := ih (running + q.cells) (by omega) (by omega)
      refine ⟨j + 1, p, by simpa using hj, ?_, ?_⟩
      · simp only [List.take_succ_cons, List.map_cons, List.sum_cons]; omega
      · simp only [List.take_succ_cons, List.map_cons, List.sum_cons]; omega

theorem sum_take_add_le (ps : List (PanelSpec α)) (j : Nat) (p : PanelSpec α)
    (hj : ps[j]? = some p) :
    ((ps.take j).map PanelSpec.cells).sum + p.cells ≤ (ps.map PanelSpec.cells).sum := by
  induction ps generalizing j with
  | nil => simp at hj
  | cons q ps ih =>
    cases j with
    | zero =>
      simp only [List.getElem?_cons_zero, Option.some.injEq] at hj
      subst hj
      simp
    | succ j =>
      simp only [List.getElem?_cons_succ] at hj
      have := ih j hj
      simp only [List.take_succ_cons, List.map_cons, List.sum_cons]
      omega

theorem coneCell_spec (cfg : GeometryConfig α) (hfit : ∀ p ∈ cfg.panels, p.Fits)
    (hsz : (cfg.panels.map PanelSpec.cells).sum < SIZE_MOD) :
    cfg.nCones = (cfg.panels.map PanelSpec.cells).sum
    ∧ (∀ k p idx, cfg.panels[k]? = some p → cfg.conesBefore k ≤ idx →
        idx < cfg.conesBefore k + p.cells →
        cfg.coneCell idx = some ⟨p, k, (idx - cfg.conesBefore k) % p.nx.toNat,
          (idx - cfg.conesBefore k) / p.nx.toNat⟩)
    ∧ (∀ idx, idx < cfg.nCones → ∃ k p, cfg.panels[k]? = some p ∧ cfg.conesBefore k ≤ idx
        ∧ idx < cfg.conesBefore k + p.cells) := by
  have hn : cfg.nCones = (cfg.panels.map PanelSpec.cells).sum := by
    unfold GeometryConfig.nCones
    rw [foldl_nCones cfg.panels hfit 0 (by omega)]
    omega
  refine ⟨hn, ?_, ?_⟩
  · intro k p idx hk hlo hhi
    unfold GeometryConfig.conesBefore at hlo hhi ⊢
    have := coneWalk_of_offset cfg.panels hfit 0 0 idx (by omega) k p hk (by omega) (by omega)
    simpa [GeometryConfig.coneCell] using this
  · intro idx hidx
    rw [hn] at hidx
    obtain ⟨j, p, hj, h1, h2⟩ := exists_panel_of_lt cfg.panels 0 idx (by omega) (by omega)
    exact ⟨j, p, hj, by unfold GeometryConfig.conesBefore; omega,
      by unfold GeometryConfig.conesBefore; omega⟩

/-- C1: for a configuration whose panels all have `nx > 0`, `ny > 0` (with
`nx * ny` within `int` and the total count within `std::size_t`), the panel
walk of `ConeGlobalCenter` sends every `idx < nCones()` to exactly one cell
`(panel, localX, localY)` with `localX < nx`, `localY < ny`, where
`local = idx - (cones in earlier panels)`, `localX = local mod nx`,
`localY = local div nx`; distinct indices get distinct cells, and every cell
of every panel is the image of some `idx < nCones()`. -/
theorem C1_coneCell_bijection (cfg : GeometryConfig α)
    (hfit : ∀ p ∈ cfg.panels, 0 < p.nx ∧ 0 < p.ny ∧ p.nx * p.ny ≤ INT_MAX)
    (hsz : (cfg.panels.map PanelSpec.cells).sum < SIZE_MOD) :
    (∀ idx, idx < cfg.nCones →
      ∃ c, cfg.coneCell idx = some c
        ∧ cfg.panels[c.panelIdx]? = some c.panel
        ∧ cfg.conesBefore c.panelIdx ≤ idx
        ∧ c.ix = (idx - cfg.conesBefore c.panelIdx) % c.panel.nx.toNat
        ∧ c.iy = (idx - cfg.conesBefore c.panelIdx) / c.panel.nx.toNat
        ∧ (c.ix : Int) < c.panel.nx ∧ (c.iy : Int) < c.panel.ny)
    ∧ (∀ i j ci cj, i < cfg.nCones → j < cfg.nCones →
        cfg.coneCell i = some ci → cfg.coneCell j = some cj →
        ci.panelIdx = cj.panelIdx → ci.ix = cj.ix → ci.iy = cj.iy → i = j)
    ∧ (∀ (k : Nat) (p : PanelSpec α) (ix iy : Nat), cfg.panels[k]? = some p →
        (ix : Int) < p.nx → (iy : Int) < p.ny →
        ∃ idx, idx < cfg.nCones ∧ cfg.coneCell idx = some ⟨p, k, ix, iy⟩) := by
  have hfit2 : ∀ p ∈ cfg.panels, p.Fits := hfit
  obtain ⟨hn, hwalk, hex⟩ := coneCell_spec cfg hfit2 hsz
  have key : ∀ idx, idx < cfg.nCones →
      ∃ c, cfg.coneCell idx = some c
        ∧ cfg.panels[c.panelIdx]? = some c.panel
        ∧ cfg.conesBefore c.panelIdx ≤ idx
        ∧ c.ix = (idx - cfg.conesBefore c.panelIdx) % c.panel.nx.toNat
        ∧ c.iy = (idx - cfg.conesBefore c.panelIdx) / c.panel.nx.toNat
        ∧ (c.ix : Int) < c.panel.nx ∧ (c.iy : Int) < c.panel.ny := by
    intro idx hidx
    obtain ⟨k, p, hk, hlo, hhi⟩ := hex idx hidx
    have hp : p.Fits := hfit2 p (List.getElem?_mem hk)
    obtain ⟨-, hnx, hcells⟩ := p.toSizeT_nx_of_fits hp
    refine ⟨_, hwalk k p idx hk hlo hhi, hk, hlo, rfl, rfl, ?_, ?_⟩
    · have := Nat.mod_lt (idx - cfg.conesBefore k) hnx
      show (((idx - cfg.conesBefore k) % p.nx.toNat : Nat) : Int) < p.nx
      omega
    · have h1 : (idx - cfg.conesBefore k) / p.nx.toNat < p.ny.toNat := by
        rw [Nat.div_lt_iff_lt_mul hnx, Nat.mul_comm p.ny.toNat, ← hcells]
        omega
      have h2 : (((idx - cfg.conesBefore k) / p.nx.toNat : Nat) : Int) < (p.ny.toNat : Int) := by
        exact_mod_cast h1
      rw [Int.toNat_of_nonneg hp.2.1.le] at h2
      exact h2
  refine ⟨key, ?_, ?_⟩
  · intro i j ci cj hi hj hci hcj hk hx hy
    obtain ⟨c, hc, hpan, hlo, hix, hiy, -, -⟩ := key i hi
    obtain ⟨d, hd, hpan2, hlo2, hix2, hiy2, -, -⟩ := key j hj
    rw [hci] at hc
    rw [hcj] at hd
    cases hc
    cases hd
    rw [hk] at hpan hlo hix hiy
    have hpp : ci.panel = cj.panel := by
      rw [hpan2] at hpan
      exact (Option.some.inj hpan).symm
    rw [hpp] at hix hiy
    have e1 := Nat.mod_add_div (i - cfg.conesBefore cj.panelIdx) cj.panel.nx.toNat
    have e2 := Nat.mod_add_div (j - cfg.conesBefore cj.panelIdx) cj.panel.nx.toNat
    rw [← hix, ← hiy] at e1
    rw [← hix2, ← hiy2, ← hx, ← hy] at e2
    omega
  · intro k p ix iy hk hx hy
    have hp : p.Fits := hfit2 p (List.getElem?_mem hk)
    obtain ⟨-, hnx, hcells⟩ := p.toSizeT_nx_of_fits hp
    have hx2 : ix < p.nx.toNat := by omega
    have hy2 : iy < p.ny.toNat := by omega
    have hlt : ix + p.nx.toNat * iy < p.cells := by
      rw [hcells]
      calc ix + p.nx.toNat * iy < p.nx.toNat + p.nx.toNat * iy := by omega
        _ = p.nx.toNat * (iy + 1) := by ring
        _ ≤ p.nx.toNat * p.ny.toNat := Nat.mul_le_mul_left _ hy2
    have htot := sum_take_add_le cfg.panels k p hk
    refine ⟨cfg.conesBefore k + (ix + p.nx.toNat * iy), ?_, ?_⟩
    · rw [hn]
      unfold GeometryConfig.conesBefore
      omega
    · rw [hwalk k p _ hk (by omega) (by omega)]
      have e : cfg.conesBefore k + (ix + p.nx.toNat * iy) - cfg.conesBefore k
          = ix + p.nx.toNat * iy := by omega
      rw [e, Nat.add_mul_mod_self_left, Nat.mod_eq_of_lt hx2, Nat.add_mul_div_left _ _ hnx,
        Nat.div_eq_of_lt hx2, Nat.zero_add]

/-- Instance of C1 at `cfgTwoPanels`, index 7 (second panel). -/
theorem C1_coneCell_bijection_witness :
    (∀ p ∈ cfgTwoPanels.panels, 0 < p.nx ∧ 0 < p.ny ∧ p.nx * p.ny ≤ INT_MAX)
    ∧ (cfgTwoPanels.panels.map PanelSpec.cells).sum < SIZE_MOD
    ∧ ∃ c, cfgTwoPanels.coneCell 7 = some c
        ∧ cfgTwoPanels.panels[c.panelIdx]? = some c.panel
        ∧ cfgTwoPanels.conesBefore c.panelIdx ≤ 7
        ∧ c.ix = (7 - cfgTwoPanels.conesBefore c.panelIdx) % c.panel.nx.toNat
        ∧ c.iy = (7 - cfgTwoPanels.conesBefore c.panelIdx) / c.panel.nx.toNat
        ∧ (c.ix : Int) < c.panel.nx ∧ (c.iy : Int) < c.panel.ny :=
  ⟨by decide, by decide,
    (C1_coneCell_bijection cfgTwoPanels (by decide) (by decide)).1 7 (by decide)⟩

theorem PanelSpec.nCones_of_count (p : PanelSpec α) (h0 : 0 ≤ p.nx * p.ny)
    (h1 : p.nx * p.ny ≤ INT_MAX) : p.nCones = p.cells := by
  unfold PanelSpec.nCones PanelSpec.cells toSizeT wrapInt32
  unfold INT_MAX at h1
  generalize p.nx * p.ny = v at *
  omega

theorem foldl_nCones_of_eq (ps : List (PanelSpec α)) (h : ∀ p ∈ ps, p.nCones = p.cells)
    (init : Nat) (hsz : init + (ps.map PanelSpec.cells).sum < SIZE_MOD) :
    ps.foldl (fun total p => (total + p.nCones) % SIZE_MOD) init
      = init + (ps.map PanelSpec.cells).sum := by
  induction ps generalizing init with
  | nil => simp
  | cons p ps ih =>
    simp only [List.foldl_cons, List.map_cons, List.sum_cons] at hsz ⊢
    rw [h p (List.mem_cons_self _ _), Nat.mod_eq_of_lt (by omega),
      ih (fun q hq => h q (List.mem_cons_of_mem _ hq)) _ (by omega)]
    omega

theorem coneWalk_none (ps : List (PanelSpec α)) (h : ∀ p ∈ ps, p.nCones = p.cells)
    (k running idx : Nat) (hsz : running + (ps.map PanelSpec.cells).sum < SIZE_MOD)
    (hidx : running + (ps.map PanelSpec.cells).sum ≤ idx) :
    coneWalk ps k running idx = none := by
  induction ps generalizing k running with
  | nil => rfl
  | cons p ps ih =>
    simp only [List.map_cons, List.sum_cons] at hsz hidx
    unfold coneWalk
    simp only [h p (List.mem_cons_self _ _)]
    rw [Nat.mod_eq_of_lt (by omega : running + p.cells < SIZE_MOD), if_neg (by omega)]
    exact ih (fun q hq => h q (List.mem_cons_of_mem _ hq)) _ _ (by omega) (by omega)

theorem sum_cells_cast (ps : List (PanelSpec α)) (h : ∀ p ∈ ps, 0 ≤ p.nx * p.ny) :
    (((ps.map PanelSpec.cells).sum : Nat) : Int) = (ps.map (fun p => p.nx * p.ny)).sum := by
  induction ps with
  | nil => simp
  | cons p ps ih =>
    simp only [List.map_cons, List.sum_cons, Nat.cast_add]
    rw [ih (fun q hq => h q (List.mem_cons_of_mem _ hq))]
    unfold PanelSpec.cells
    rw [Int.toNat_of_nonneg (h p (List.mem_cons_self _ _))]

/-- C15: for a configuration whose panels all have `nx, ny > 0` (with
`nx * ny` within `int` and the total within `std::size_t`), every valid `idx`
falls in a panel, and for `idx` in panel `p` with
`local = idx - (cones in earlier panels)`, `ConeGlobalCenter(idx)` is
`x = p.x0 + p.offset.x`, `y = ((local div p.nx) - (p.ny - 1)/2) * p.pitch +
p.offset.y`, `z = p.offset.z`; so `x` is the same for all indices of one
panel. -/
theorem C15_coneGlobalCenter_formula [LinearOrderedField α] (cfg : GeometryConfig α)
    (hfit : ∀ p ∈ cfg.panels, 0 < p.nx ∧ 0 < p.ny ∧ p.nx * p.ny ≤ INT_MAX)
    (hsz : (cfg.panels.map PanelSpec.cells).sum < SIZE_MOD) :
    (∀ idx, idx < cfg.nCones → ∃ k p, cfg.panels[k]? = some p ∧ cfg.conesBefore k ≤ idx
        ∧ idx < cfg.conesBefore k + p.cells)
    ∧ (∀ (k : Nat) (p : PanelSpec α) (idx : Nat), cfg.panels[k]? = some p →
        cfg.conesBefore k ≤ idx → idx < cfg.conesBefore k + p.cells →
        cfg.ConeGlobalCenter idx
          = ⟨p.x0_nm + p.offset_nm.x_nm,
             ((((idx - cfg.conesBefore k) / p.nx.toNat : Nat) : α) - ((p.ny : α) - 1) / 2)
               * p.pitch_nm + p.offset_nm.y_nm,
             p.offset_nm.z_nm⟩)
    ∧ (∀ (k : Nat) (p : PanelSpec α) (i j : Nat), cfg.panels[k]? = some p →
        cfg.conesBefore k ≤ i → i < cfg.conesBefore k + p.cells →
        cfg.conesBefore k ≤ j → j < cfg.conesBefore k + p.cells →
        (cfg.ConeGlobalCenter i).x_nm = (cfg.ConeGlobalCenter j).x_nm) := by
  have hfit2 : ∀ p ∈ cfg.panels, p.Fits := hfit
  obtain ⟨-, hwalk, hex⟩ := coneCell_spec cfg hfit2 hsz
  have hform : ∀ (k : Nat) (p : PanelSpec α) (idx : Nat), cfg.panels[k]? = some p →
      cfg.conesBefore k ≤ idx → idx < cfg.conesBefore k + p.cells →
      cfg.ConeGlobalCenter idx
        = ⟨p.x0_nm + p.offset_nm.x_nm,
           ((((idx - cfg.conesBefore k) / p.nx.toNat : Nat) : α) - ((p.ny : α) - 1) / 2)
             * p.pitch_nm + p.offset_nm.y_nm,
           p.offset_nm.z_nm⟩ := by
    intro k p idx hk hlo hhi
    obtain ⟨hx, hy, hxy⟩ := hfit p (List.getElem?_mem hk)
    have hny : wrapInt32 (p.ny - 1) = p.ny - 1 := by
      have h1 : p.ny ≤ p.nx * p.ny := le_mul_of_one_le_left hy.le hx
      unfold INT_MAX at hxy
      unfold wrapInt32
      omega
    unfold GeometryConfig.ConeGlobalCenter
    rw [hwalk k p idx hk hlo hhi]
    simp only [hny, Int.cast_sub, Int.cast_one]
  refine ⟨hex, hform, ?_⟩
  intro k p i j hk hi1 hi2 hj1 hj2
  rw [hform k p i hk hi1 hi2, hform k p j hk hj1 hj2]

/-- Instance of C15 at `cfgTwoPanels`, index 7: the second cone of the second
panel (`local = 1`, `local div nx = 1`). -/
theorem C15_coneGlobalCenter_formula_witness :
    (∀ p ∈ cfgTwoPanels.panels, 0 < p.nx ∧ 0 < p.ny ∧ p.nx * p.ny ≤ INT_MAX)
    ∧ (cfgTwoPanels.panels.map PanelSpec.cells).sum < SIZE_MOD
    ∧ cfgTwoPanels.panels[1]? = some ⟨1, 2, 150, 400, ⟨0, 0, 0⟩⟩
    ∧ cfgTwoPanels.ConeGlobalCenter 7
        = ⟨400 + 0, ((((7 - cfgTwoPanels.conesBefore 1) / (1 : Int).toNat : Nat) : ℚ)
            - (((2 : Int) : ℚ) - 1) / 2) * 150 + 0, 0⟩ :=
  ⟨by decide, by decide, rfl,
    (C15_coneGlobalCenter_formula cfgTwoPanels (by decide) (by decide)).2.1 1
      ⟨1, 2, 150, 400, ⟨0, 0, 0⟩⟩ 7 rfl (by decide) (by decide)⟩

/-- C16 (amended): for a configuration whose panels all have a non-negative
cone count `nx * ny` within `int`, the total being within `std::size_t` (this
includes the configuration with no panels and panels with `nx = 0` or
`ny = 0`), `ConeGlobalCenter(idx)` is the vector `(0, 0, 0)` for every
`idx >= nCones()`. -/
theorem C16_out_of_range_is_zero [LinearOrderedField α] (cfg : GeometryConfig α)
    (hcount : ∀ p ∈ cfg.panels, 0 ≤ p.nx * p.ny ∧ p.nx * p.ny ≤ INT_MAX)
    (hsz : (cfg.panels.map PanelSpec.cells).sum < SIZE_MOD)
    (idx : Nat) (hidx : cfg.nCones ≤ idx) :
    cfg.ConeGlobalCenter idx = ⟨0, 0, 0⟩ := by
  have heq : ∀ p ∈ cfg.panels, p.nCones = p.cells :=
    fun p hp => p.nCones_of_count (hcount p hp).1 (hcount p hp).2
  have hn : cfg.nCones = (cfg.panels.map PanelSpec.cells).sum := by
    unfold GeometryConfig.nCones
    rw [foldl_nCones_of_eq cfg.panels heq 0 (by omega)]
    omega
  have hw : cfg.coneCell idx = none := by
    unfold GeometryConfig.coneCell
    exact coneWalk_none cfg.panels heq 0 0 idx (by omega) (by omega)
  unfold GeometryConfig.ConeGlobalCenter
  rw [hw]

/-- Instance of C16 at `cfgTwoPanels` (8 cones) and the index 8. -/
theorem C16_out_of_range_is_zero_witness :
    (∀ p ∈ cfgTwoPanels.panels, 0 ≤ p.nx * p.ny ∧ p.nx * p.ny ≤ INT_MAX)
    ∧ (cfgTwoPanels.panels.map PanelSpec.cells).sum < SIZE_MOD
    ∧ cfgTwoPanels.nCones ≤ 8
    ∧ cfgTwoPanels.ConeGlobalCenter 8 = ⟨0, 0, 0⟩ :=
  ⟨by decide, by decide, by decide,
    C16_out_of_range_is_zero cfgTwoPanels (by decide) (by decide) 8 (by decide)⟩

/-- C16 fails as stated: in `cfgNegative` the first panel has `nx = -1`,
`ny = 1`, whose count converts to `2^64 - 1`; `nCones()` wraps to 0, so the
index 0 is out of range, yet the walk selects the first panel and
`ConeGlobalCenter(0)` is `(7, 0, 0)`. -/
theorem C16_counterexample :
    cfgNegative.nCones = 0
    ∧ cfgNegative.nCones ≤ 0
    ∧ cfgNegative.ConeGlobalCenter 0 = ⟨7, 0, 0⟩
    ∧ cfgNegative.ConeGlobalCenter 0 ≠ ⟨0, 0, 0⟩ :=
  ⟨by decide!, by decide!, by decide!, by decide!⟩

/-- C17: for a configuration whose panels all have `nx, ny > 0` (with
`nx * ny` within `int` and the total within `std::size_t`), `nPanels()` is the
number of panels and `nCones()` the sum over the panels of `nx * ny`; a
configuration with the single panel `nx = 2`, `ny = 2` has `nCones() = 4` and
`nPanels() = 1`. -/
theorem C17_counts [LinearOrderedField α] (cfg : GeometryConfig α)
    (hfit : ∀ p ∈ cfg.panels, 0 < p.nx ∧ 0 < p.ny ∧ p.nx * p.ny ≤ INT_MAX)
    (hsz : (cfg.panels.map PanelSpec.cells).sum < SIZE_MOD) :
    cfg.nPanels = cfg.panels.length
    ∧ (cfg.nCones : Int) = (cfg.panels.map (fun p => p.nx * p.ny)).sum
    ∧ (∀ (cone : ConeSpec α) (gap rMiddle rOuter pitch x0 : α) (offset : Vec3 α),
        (⟨cone, gap, rMiddle, rOuter, [⟨2, 2, pitch, x0, offset⟩]⟩ : GeometryConfig α).nCones = 4
        ∧ (⟨cone, gap, rMiddle, rOuter, [⟨2, 2, pitch, x0, offset⟩]⟩
            : GeometryConfig α).nPanels = 1) := by
  have hfit2 : ∀ p ∈ cfg.panels, p.Fits := hfit
  obtain ⟨hn, -, -⟩ := coneCell_spec cfg hfit2 hsz
  refine ⟨rfl, ?_, ?_⟩
  · rw [hn]
    exact sum_cells_cast cfg.panels (fun p hp =>
      (Int.mul_pos (hfit p hp).1 (hfit p hp).2.1).le)
  · intro cone gap rMiddle rOuter pitch x0 offset
    refine ⟨?_, rfl⟩
    show (0 + toSizeT (wrapInt32 (2 * 2))) % SIZE_MOD = 4
    decide

/-- Instance of C17 at `cfgSquare`: one panel, four cones. -/
theorem C17_counts_witness :
    (∀ p ∈ cfgSquare.panels, 0 < p.nx ∧ 0 < p.ny ∧ p.nx * p.ny ≤ INT_MAX)
    ∧ (cfgSquare.panels.map PanelSpec.cells).sum < SIZE_MOD
    ∧ cfgSquare.nPanels = cfgSquare.panels.length
    ∧ (cfgSquare.nCones : Int) = (cfgSquare.panels.map (fun p => p.nx * p.ny)).sum :=
  ⟨by decide, by decide,
    (C17_counts cfgSquare (by decide) (by decide)).1,
    (C17_counts cfgSquare (by decide) (by decide)).2.1⟩

end geom

namespace RateTable2D

/-! ## Rate table -/

variable {α : Type} [LinearOrderedField α]

theorem lowerBound_eq_zero (l : List α) (v : α) (h : ∀ x ∈ l, v ≤ x) : lowerBound l v = 0 := by
  unfold lowerBound
  cases l with
  | nil => simp
  | cons a l =>
    have : ¬ a < v := not_lt.mpr (h a (List.mem_cons_self _ _))
    simp [List.takeWhile, this]

theorem findBilinear_none_of_rho_min (pts : List (RatePoint α)) (rho z : α)
    (h : ∀ q ∈ pts, rho ≤ q.rho) : FindBilinearNeighbors pts rho z = none := by
  have h0 : lowerBound ((pts.map (fun pt => pt.rho)).insertionSort (· ≤ ·)) rho = 0 := by
    apply lowerBound_eq_zero
    intro x hx
    rw [(List.perm_insertionSort _ _).mem_iff] at hx
    obtain ⟨q, hq, rfl⟩ := List.mem_map.mp hx
    exact h q hq
  unfold FindBilinearNeighbors
  simp [h0]

theorem findBilinear_none_of_z_min (pts : List (RatePoint α)) (rho z : α)
    (h : ∀ q ∈ pts, z ≤ q.z) : FindBilinearNeighbors pts rho z = none := by
  have h0 : lowerBound ((pts.map (fun pt => pt.z)).insertionSort (· ≤ ·)) z = 0 := by
    apply lowerBound_eq_zero
    intro x hx
    rw [(List.perm_insertionSort _ _).mem_iff] at hx
    obtain ⟨q, hq, rfl⟩ := List.mem_map.mp hx
    exact h q hq
  unfold FindBilinearNeighbors
  simp [h0]

/-- Squared distance used by the nearest-neighbour loop. -/
theorem dist2_nonneg (pt : RatePoint α) (rho z : α) :
    0 ≤ (pt.rho - rho) * (pt.rho - rho) + (pt.z - z) * (pt.z - z) :=
  add_nonneg (mul_self_nonneg _) (mul_self_nonneg _)

theorem dist2_eq_zero_iff (pt : RatePoint α) (rho z : α) :
    (pt.rho - rho) * (pt.rho - rho) + (pt.z - z) * (pt.z - z) = 0 ↔ pt.rho = rho ∧ pt.z = z := by
  constructor
  · intro h
    have h1 := mul_self_nonneg (pt.rho - rho)
    have h2 := mul_self_nonneg (pt.z - z)
    have e1 : (pt.rho - rho) * (pt.rho - rho) = 0 := by linarith
    have e2 : (pt.z - z) * (pt.z - z) = 0 := by linarith
    exact ⟨sub_eq_zero.mp (mul_self_eq_zero.mp e1), sub_eq_zero.mp (mul_self_eq_zero.mp e2)⟩
  · rintro ⟨h1, h2⟩
    simp [h1, h2]

/-- Nearest-neighbour loop at a query that coincides with loaded points which
all carry the rate `r`: once the minimum distance is zero the value is `r`,
and it is zero as soon as such a point has been visited. -/
theorem nearest_fold_exact (rho z r : α) (l : List (RatePoint α))
    (hrate : ∀ q ∈ l, q.rho = rho → q.z = z → q.rate = r)
    (acc : WithTop α × α) (hnn : 0 ≤ acc.1) (hacc : acc.1 = 0 → acc.2 = r) :
    0 ≤ (l.foldl (nearestStep rho z) acc).1
    ∧ ((l.foldl (nearestStep rho z) acc).1 = 0 → (l.foldl (nearestStep rho z) acc).2 = r)
    ∧ ((acc.1 = 0 ∨ ∃ q ∈ l, q.rho = rho ∧ q.z = z) → (l.foldl (nearestStep rho z) acc).1 = 0) := by
  induction l generalizing acc with
  | nil =>
    refine ⟨hnn, hacc, ?_⟩
    rintro (h | ⟨q, hq, -⟩)
    · exact h
    · simp at hq
  | cons a l ih =>
    simp only [List.foldl_cons]
    have hd := dist2_nonneg a rho z
    have hstep_nn : 0 ≤ (nearestStep rho z acc a).1 := by
      unfold nearestStep
      simp only
      split
      · dsimp only
        exact_mod_cast hd
      · exact hnn
    have hstep_acc : (nearestStep rho z acc a).1 = 0 → (nearestStep rho z acc a).2 = r := by
      unfold nearestStep
      simp only
      split
      · intro h0
        have h0' : (a.rho - rho) * (a.rho - rho) + (a.z - z) * (a.z - z) = 0 := by
          dsimp only at h0
          exact_mod_cast h0
        obtain ⟨e1, e2⟩ := (dist2_eq_zero_iff a rho z).mp h0'
        exact hrate a (List.mem_cons_self _ _) e1 e2
      · exact hacc
    obtain ⟨i1, i2, i3⟩ := ih (fun q hq => hrate q (List.mem_cons_of_mem _ hq))
      (nearestStep rho z acc a) hstep_nn hstep_acc
    refine ⟨i1, i2, ?_⟩
    intro h
    apply i3
    rcases h with h | ⟨q, hq, e1, e2⟩
    · left
      unfold nearestStep
      simp only
      rw [if_neg]
      · exact h
      · rw [h]
        exact not_lt.mpr (by exact_mod_cast hd)
    · rcases List.mem_cons.mp hq with rfl | hq'
      · left
        have h0 := (dist2_eq_zero_iff q rho z).mpr ⟨e1, e2⟩
        unfold nearestStep
        simp only
        split
        · dsimp only
          exact_mod_cast h0
        · rename_i hlt
          rw [h0] at hlt
          exact le_antisymm (not_lt.mp hlt) hnn
      · right
        exact ⟨q, hq', e1, e2⟩

theorem interp_of_none (pts : List (RatePoint α)) (p : RatePoint α) (hp : p ∈ pts)
    (hsame : ∀ q ∈ pts, q.rho = p.rho → q.z = p.z → q.rate = p.rate)
    (hnone : FindBilinearNeighbors pts p.rho p.z = none) :
    Interp pts p.rho p.z = p.rate := by
  unfold Interp
  rw [hnone]
  obtain ⟨-, h2, h3⟩ := nearest_fold_exact p.rho p.z p.rate pts hsame (⊤, 0)
    (by simp) (by simp)
  exact h2 (h3 (Or.inr ⟨p, hp, rfl, rfl⟩))

/-- C2 (amended): for a loaded point `p` such that every loaded point with the
coordinates of `p` has the rate of `p`, `Interp(p.rho, p.z)` returns exactly
`p.rate` whenever no bracketing rectangle is found there, which is the case
when `p.rho` is the smallest loaded rho or `p.z` the smallest loaded z; and
also when the rectangle found consists, in load order, of the corners
`(r1,z1)`, `(r2,z1)`, `(r1,z2)` and of `p` itself at `(r2,z2)`. -/
theorem C2_interp_loaded_point (pts : List (RatePoint α)) (p : RatePoint α) (hp : p ∈ pts)
    (hsame : ∀ q ∈ pts, q.rho = p.rho → q.z = p.z → q.rate = p.rate) :
    (FindBilinearNeighbors pts p.rho p.z = none → Interp pts p.rho p.z = p.rate)
    ∧ ((∀ q ∈ pts, p.rho ≤ q.rho) → Interp pts p.rho p.z = p.rate)
    ∧ ((∀ q ∈ pts, p.z ≤ q.z) → Interp pts p.rho p.z = p.rate)
    ∧ (∀ n0 n1 n2 : RatePoint α, FindBilinearNeighbors pts p.rho p.z = some [n0, n1, n2, p] →
        n0.rho ≠ p.rho → n0.z ≠ p.z → n1.rho = p.rho → n2.z = p.z →
        Interp pts p.rho p.z = p.rate) := by
  refine ⟨interp_of_none pts p hp hsame, ?_, ?_, ?_⟩
  · intro h
    exact interp_of_none pts p hp hsame (findBilinear_none_of_rho_min pts p.rho p.z h)
  · intro h
    exact interp_of_none pts p hp hsame (findBilinear_none_of_z_min pts p.rho p.z h)
  · intro n0 n1 n2 hfind h0 h1 h2 h3
    unfold Interp
    rw [hfind]
    have hx : p.rho - n0.rho ≠ 0 := sub_ne_zero.mpr (Ne.symm h0)
    have hz : p.z - n0.z ≠ 0 := sub_ne_zero.mpr (Ne.symm h1)
    have hden : (p.rho - n0.rho) * (p.z - n0.z) ≠ 0 := mul_ne_zero hx hz
    simp only [BilinearInterp, h2, h3]
    rw [if_neg hden]
    field_simp

/-- Instance of C2 at the row-major unit square and its last point. -/
theorem C2_interp_loaded_point_witness :
    (⟨1, 1, 11⟩ : RatePoint ℚ) ∈ tableRowMajor
    ∧ (∀ q ∈ tableRowMajor, q.rho = 1 → q.z = 1 → q.rate = 11)
    ∧ Interp tableRowMajor 1 1 = 11 :=
  ⟨by decide, by decide,
    (C2_interp_loaded_point tableRowMajor ⟨1, 1, 11⟩ (by decide) (by decide)).2.2.2
      ⟨0, 0, 5⟩ ⟨1, 0, 7⟩ ⟨0, 1, 9⟩ (by decide!) (by decide) (by decide) rfl rfl⟩

/-- C2 fails as stated: with a repeated coordinate pair the second point's
rate is not returned, and on the unit square loaded column by column the
value at the sample `(1,1)` is 8, not the loaded 11. -/
theorem C2_counterexample :
    ((⟨0, 0, 2⟩ : RatePoint ℚ) ∈ tableRepeated ∧ Interp tableRepeated 0 0 = 1
      ∧ ¬ ∀ p ∈ tableRepeated, Interp tableRepeated p.rho p.z = p.rate)
    ∧ ((⟨1, 1, 11⟩ : RatePoint ℚ) ∈ tableColMajor ∧ Interp tableColMajor 1 1 = 8
      ∧ ¬ ∀ p ∈ tableColMajor, Interp tableColMajor p.rho p.z = p.rate) :=
  ⟨⟨by decide, by decide!, by decide!⟩, ⟨by decide, by decide!, by decide!⟩⟩

theorem boxFold_spec (l : List (RatePoint α)) (b : Box α) (x : α) :
    ((l.foldl boxStep b).minRho ≤ (x : WithTop α) ↔ b.minRho ≤ (x : WithTop α) ∨ ∃ p ∈ l, p.rho ≤ x)
    ∧ ((x : WithBot α) ≤ (l.foldl boxStep b).maxRho ↔ (x : WithBot α) ≤ b.maxRho ∨ ∃ p ∈ l, x ≤ p.rho)
    ∧ ((l.foldl boxStep b).minZ ≤ (x : WithTop α) ↔ b.minZ ≤ (x : WithTop α) ∨ ∃ p ∈ l, p.z ≤ x)
    ∧ ((x : WithBot α) ≤ (l.foldl boxStep b).maxZ ↔ (x : WithBot α) ≤ b.maxZ ∨ ∃ p ∈ l, x ≤ p.z) := by
  induction l generalizing b with
  | nil => simp
  | cons a l ih =>
    obtain ⟨h1, h2, h3, h4⟩ := ih (boxStep b a)
    simp only [List.foldl_cons, List.mem_cons, exists_eq_or_imp]
    refine ⟨?_, ?_, ?_, ?_⟩
    · rw [h1]
      simp only [boxStep, min_le_iff, WithTop.coe_le_coe, or_assoc]
    · rw [h2]
      simp only [boxStep, le_max_iff, WithBot.coe_le_coe, or_assoc]
    · rw [h3]
      simp only [boxStep, min_le_iff, WithTop.coe_le_coe, or_assoc]
    · rw [h4]
      simp only [boxStep, le_max_iff, WithBot.coe_le_coe, or_assoc]

theorem inside_iff_exists (pts : List (RatePoint α)) (rho z : α) :
    Inside pts rho z = true ↔
      (∃ p ∈ pts, p.rho ≤ rho) ∧ (∃ p ∈ pts, rho ≤ p.rho)
      ∧ (∃ p ∈ pts, p.z ≤ z) ∧ (∃ p ∈ pts, z ≤ p.z) := by
  unfold Inside
  cases pts with
  | nil => simp
  | cons a l =>
    obtain ⟨h1, -, -, -⟩ := boxFold_spec (a :: l) ⟨⊤, ⊥, ⊤, ⊥⟩ rho
    obtain ⟨-, h2, -, -⟩ := boxFold_spec (a :: l) ⟨⊤, ⊥, ⊤, ⊥⟩ rho
    obtain ⟨-, -, h3, -⟩ := boxFold_spec (a :: l) ⟨⊤, ⊥, ⊤, ⊥⟩ z
    obtain ⟨-, -, -, h4⟩ := boxFold_spec (a :: l) ⟨⊤, ⊥, ⊤, ⊥⟩ z
    simp only [List.isEmpty_cons, Bool.false_eq_true, if_false, decide_eq_true_eq, ge_iff_le]
    rw [h1, h2, h3, h4]
    simp

theorem exists_min_image (l : List (RatePoint α)) (f : RatePoint α → α) (h : l ≠ []) :
    ∃ p ∈ l, ∀ q ∈ l, f p ≤ f q := by
  induction l with
  | nil => exact absurd rfl h
  | cons a l ih =>
    by_cases hl : l = []
    · subst hl
      exact ⟨a, by simp, by simp⟩
    · obtain ⟨p, hp, hmin⟩ := ih hl
      rcases le_total (f a) (f p) with hap | hpa
      · refine ⟨a, by simp, ?_⟩
        intro q hq
        rcases List.mem_cons.mp hq with rfl | hq'
        · exact le_refl _
        · exact le_trans hap (hmin q hq')
      · refine ⟨p, List.mem_cons_of_mem _ hp, ?_⟩
        intro q hq
        rcases List.mem_cons.mp hq with rfl | hq'
        · exact hpa
        · exact hmin q hq'

/-- C3: for a non-empty table there are bounds `minRho`, `maxRho`, `minZ`,
`maxZ`, the least and greatest rho and z over the loaded points, such that
`Inside(rho, z)` is true if and only if `minRho <= rho <= maxRho` and
`minZ <= z <= maxZ`; so it is true on the boundary and false strictly
beyond any bound. -/
theorem C3_inside_iff_bounding_box (pts : List (RatePoint α)) (hne : pts ≠ []) :
    ∃ minRho maxRho minZ maxZ : α,
      IsLeast {r | ∃ p ∈ pts, p.rho = r} minRho
      ∧ IsGreatest {r | ∃ p ∈ pts, p.rho = r} maxRho
      ∧ IsLeast {r | ∃ p ∈ pts, p.z = r} minZ
      ∧ IsGreatest {r | ∃ p ∈ pts, p.z = r} maxZ
      ∧ (∀ rho z, Inside pts rho z = true ↔
          minRho ≤ rho ∧ rho ≤ maxRho ∧ minZ ≤ z ∧ z ≤ maxZ)
      ∧ Inside pts minRho minZ = true ∧ Inside pts maxRho minZ = true
      ∧ Inside pts minRho maxZ = true ∧ Inside pts maxRho maxZ = true
      ∧ (∀ rho z, rho < minRho ∨ maxRho < rho ∨ z < minZ ∨ maxZ < z →
          Inside pts rho z = false) := by
  obtain ⟨p1, hp1, hmin1⟩ := exists_min_image pts (fun p => p.rho) hne
  obtain ⟨p2, hp2, hmax1⟩ := exists_min_image pts (fun p => -p.rho) hne
  obtain ⟨p3, hp3, hmin2⟩ := exists_min_image pts (fun p => p.z) hne
  obtain ⟨p4, hp4, hmax2⟩ := exists_min_image pts (fun p => -p.z) hne
  simp only [neg_le_neg_iff] at hmax1 hmax2
  have hiff : ∀ rho z, Inside pts rho z = true ↔
      p1.rho ≤ rho ∧ rho ≤ p2.rho ∧ p3.z ≤ z ∧ z ≤ p4.z := by
    intro rho z
    rw [inside_iff_exists]
    constructor
    · rintro ⟨⟨a, ha, h1⟩, ⟨b, hb, h2⟩, ⟨c, hc, h3⟩, ⟨d, hd, h4⟩⟩
      exact ⟨le_trans (hmin1 a ha) h1, le_trans h2 (hmax1 b hb),
        le_trans (hmin2 c hc) h3, le_trans h4 (hmax2 d hd)⟩
    · rintro ⟨h1, h2, h3, h4⟩
      exact ⟨⟨p1, hp1, h1⟩, ⟨p2, hp2, h2⟩, ⟨p3, hp3, h3⟩, ⟨p4, hp4, h4⟩⟩
  have b1 : p1.rho ≤ p2.rho := hmin1 p2 hp2
  have b2 : p3.z ≤ p4.z := hmin2 p4 hp4
  refine ⟨p1.rho, p2.rho, p3.z, p4.z, ?_, ?_, ?_, ?_, hiff, ?_, ?_, ?_, ?_, ?_⟩
  · exact ⟨⟨p1, hp1, rfl⟩, by rintro r ⟨q, hq, rfl⟩; exact hmin1 q hq⟩
  · exact ⟨⟨p2, hp2, rfl⟩, by rintro r ⟨q, hq, rfl⟩; exact hmax1 q hq⟩
  · exact ⟨⟨p3, hp3, rfl⟩, by rintro r ⟨q, hq, rfl⟩; exact hmin2 q hq⟩
  · exact ⟨⟨p4, hp4, rfl⟩, by rintro r ⟨q, hq, rfl⟩; exact hmax2 q hq⟩
  · exact (hiff _ _).mpr ⟨le_refl _, b1, le_refl _, b2⟩
  · exact (hiff _ _).mpr ⟨b1, le_refl _, le_refl _, b2⟩
  · exact (hiff _ _).mpr ⟨le_refl _, b1, b2, le_refl _⟩
  · exact (hiff _ _).mpr ⟨b1, le_refl _, b2, le_refl _⟩
  · intro rho z h
    rw [← Bool.not_eq_true, hiff]
    rintro ⟨h1, h2, h3, h4⟩
    rcases h with h | h | h | h
    · exact absurd h1 (not_le.mpr h)
    · exact absurd h2 (not_le.mpr h)
    · exact absurd h3 (not_le.mpr h)
    · exact absurd h4 (not_le.mpr h)

/-- Instance of C3 at the row-major unit square. -/
theorem C3_inside_iff_bounding_box_witness :
    tableRowMajor ≠ []
    ∧ ∃ minRho maxRho minZ maxZ : ℚ,
      IsLeast {r | ∃ p ∈ tableRowMajor, p.rho = r} minRho
      ∧ IsGreatest {r | ∃ p ∈ tableRowMajor, p.rho = r} maxRho
      ∧ IsLeast {r | ∃ p ∈ tableRowMajor, p.z = r} minZ
      ∧ IsGreatest {r | ∃ p ∈ tableRowMajor, p.z = r} maxZ
      ∧ (∀ rho z, Inside tableRowMajor rho z = true ↔
          minRho ≤ rho ∧ rho ≤ maxRho ∧ minZ ≤ z ∧ z ≤ maxZ)
      ∧ Inside tableRowMajor minRho minZ = true ∧ Inside tableRowMajor maxRho minZ = true
      ∧ Inside tableRowMajor minRho maxZ = true ∧ Inside tableRowMajor maxRho maxZ = true
      ∧ (∀ rho z, rho < minRho ∨ maxRho < rho ∨ z < minZ ∨ maxZ < z →
          Inside tableRowMajor rho z = false) :=
  ⟨by decide, C3_inside_iff_bounding_box tableRowMajor (by decide)⟩

/-- C4 at the unit square loaded column by column, query `(1/4, 1/4)`: the
bracketing values are `r1 = 0 < 1/4 <= 1 = r2`, `z1 = 0 < 1/4 <= 1 = z2`, the
four corners are found (one loaded point each), yet the four points reach
`BilinearInterp` in load order, its `x2 - x1` is zero and `Interp` returns the
diagonal average 8; the bilinear interpolant of the claim is 13/2, which is
what `Interp` returns for the same points loaded row by row. -/
theorem C4_column_major_interp :
    FindBilinearNeighbors tableColMajor (1 / 4) (1 / 4) = some tableColMajor
    ∧ Interp tableColMajor (1 / 4) (1 / 4) = 8
    ∧ ((5 : ℚ) * (1 - 1 / 4) * (1 - 1 / 4) + 7 * (1 / 4 - 0) * (1 - 1 / 4)
        + 9 * (1 - 1 / 4) * (1 / 4 - 0) + 11 * (1 / 4 - 0) * (1 / 4 - 0))
        / ((1 - 0) * (1 - 0)) = 13 / 2
    ∧ Interp tableRowMajor (1 / 4) (1 / 4) = 13 / 2 :=
  ⟨by decide!, by decide!, by norm_num, by decide!⟩

theorem bilinearInterp_const (N : List (RatePoint α)) (c rho z : α)
    (h : ∀ p ∈ N, p.rate = c) (hlen : N.length = 4) : BilinearInterp N rho z = c := by
  match N, hlen with
  | [n0, n1, n2, n3], _ =>
    have h0 : n0.rate = c := h n0 (by simp)
    have h1 : n1.rate = c := h n1 (by simp)
    have h2 : n2.rate = c := h n2 (by simp)
    have h3 : n3.rate = c := h n3 (by simp)
    simp only [BilinearInterp, h0, h1, h2, h3]
    split
    · ring
    · rename_i hden
      field_simp
      ring

theorem nearest_fold_const (rho z c : α) (l : List (RatePoint α))
    (h : ∀ p ∈ l, p.rate = c) (acc : WithTop α × α) (hacc : acc.1 ≠ ⊤ → acc.2 = c) :
    ((l.foldl (nearestStep rho z) acc).1 ≠ ⊤ → (l.foldl (nearestStep rho z) acc).2 = c)
    ∧ (l ≠ [] → (l.foldl (nearestStep rho z) acc).1 ≠ ⊤) := by
  induction l generalizing acc with
  | nil => exact ⟨hacc, fun h => absurd rfl h⟩
  | cons a l ih =>
    simp only [List.foldl_cons]
    have hstep : (nearestStep rho z acc a).1 ≠ ⊤ → (nearestStep rho z acc a).2 = c := by
      unfold nearestStep
      simp only
      split
      · intro _
        exact h a (List.mem_cons_self _ _)
      · exact hacc
    have hfin : acc.1 ≠ ⊤ ∨ (nearestStep rho z acc a).1 ≠ ⊤ := by
      by_cases ht : acc.1 = ⊤
      · right
        unfold nearestStep
        simp only [ht, WithTop.coe_lt_top, if_true]
        exact WithTop.coe_ne_top
      · exact Or.inl ht
    have hstep_fin : (nearestStep rho z acc a).1 ≠ ⊤ := by
      rcases hfin with h1 | h1
      · unfold nearestStep
        simp only
        split
        · exact WithTop.coe_ne_top
        · exact h1
      · exact h1
    obtain ⟨i1, i2⟩ := ih (fun p hp => h p (List.mem_cons_of_mem _ hp)) _ hstep
    refine ⟨i1, fun _ => ?_⟩
    by_cases hl : l = []
    · subst hl
      simpa using hstep_fin
    · exact i2 hl

/-- A table whose rates all equal `c` interpolates to `c` everywhere (for the
empty table the nearest-neighbour value is the initial 0). -/
theorem interp_const (pts : List (RatePoint α)) (c rho z : α)
    (h : ∀ p ∈ pts, p.rate = c) (hne : pts ≠ [] ∨ c = 0) : Interp pts rho z = c := by
  unfold Interp
  cases hf : FindBilinearNeighbors pts rho z with
  | some N =>
    simp only
    unfold FindBilinearNeighbors at hf
    simp only at hf
    split at hf
    · exact absurd hf (by simp)
    · split at hf
      · exact absurd hf (by simp)
      · split at hf
        · rename_i hlen
          cases hf
          exact bilinearInterp_const _ c rho z
            (fun p hp => h p (List.mem_of_mem_filter hp)) hlen
        · exact absurd hf (by simp)
  | none =>
    simp only
    obtain ⟨i1, i2⟩ := nearest_fold_const rho z c pts h (⊤, 0) (by simp)
    rcases hne with hne | hc
    · exact i1 (i2 hne)
    · by_cases hl : pts = []
      · subst hl
        simp [hc]
      · exact i1 (i2 hl)

theorem cornerTol_pos : (0 : α) < cornerTol := by
  unfold cornerTol
  positivity

theorem lowerBound_two (a b m : α) (ha : a < m) (hb : ¬ b < m) :
    lowerBound [a, a, b, b] m = 2 := by
  simp [lowerBound, List.takeWhile, ha, hb]

theorem findBilinear_rectangle (r1 r2 z1 z2 f11 f21 f12 f22 rho z : α)
    (hr : r1 < r2) (hz : z1 < z2) (h1 : r1 < rho) (h2 : rho ≤ r2) (h3 : z1 < z) (h4 : z ≤ z2) :
    FindBilinearNeighbors [⟨r1, z1, f11⟩, ⟨r2, z1, f21⟩, ⟨r1, z2, f12⟩, ⟨r2, z2, f22⟩] rho z
      = some [⟨r1, z1, f11⟩, ⟨r2, z1, f21⟩, ⟨r1, z2, f12⟩, ⟨r2, z2, f22⟩] := by
  have hs1 : ([r1, r2, r1, r2] : List α).insertionSort (· ≤ ·) = [r1, r1, r2, r2] := by
    simp [List.insertionSort, List.orderedInsert, hr.le, not_le.mpr hr]
  have hs2 : ([z1, z1, z2, z2] : List α).insertionSort (· ≤ ·) = [z1, z1, z2, z2] := by
    simp [List.insertionSort, List.orderedInsert, hz.le]
  have hl1 := lowerBound_two r1 r2 rho h1 (not_lt.mpr h2)
  have hl2 := lowerBound_two z1 z2 z h3 (not_lt.mpr h4)
  have ht : (0 : α) < cornerTol := cornerTol_pos
  unfold FindBilinearNeighbors
  simp only [List.map_cons, List.map_nil, hs1, hs2, hl1, hl2]
  simp [isCorner, ht]

/-- C18: for the table made of exactly the four points `(r1,z1,f11)`,
`(r2,z1,f21)`, `(r1,z2,f12)`, `(r2,z2,f22)` loaded in that order with
`r1 < r2` and `z1 < z2`, `Interp` at the rectangle centre
`((r1+r2)/2, (z1+z2)/2)` is the equal-weight average
`(f11 + f21 + f12 + f22)/4`; for the points `(0,0,5)`, `(1,0,7)`, `(0,1,9)`,
`(1,1,11)` this gives `Interp(0.5, 0.5) = 8`. -/
theorem C18_centre_average (r1 r2 z1 z2 f11 f21 f12 f22 : α) (hr : r1 < r2) (hz : z1 < z2) :
    Interp [⟨r1, z1, f11⟩, ⟨r2, z1, f21⟩, ⟨r1, z2, f12⟩, ⟨r2, z2, f22⟩]
        ((r1 + r2) / 2) ((z1 + z2) / 2)
      = (f11 + f21 + f12 + f22) / 4
    ∧ Interp tableRowMajor (1 / 2) (1 / 2) = 8 := by
  refine ⟨?_, by decide!⟩
  have hfind := findBilinear_rectangle r1 r2 z1 z2 f11 f21 f12 f22 ((r1 + r2) / 2)
    ((z1 + z2) / 2) hr hz (by linarith) (by linarith) (by linarith) (by linarith)
  unfold Interp
  rw [hfind]
  have hx : r2 - r1 ≠ 0 := sub_ne_zero.mpr (ne_of_gt hr)
  have hy : z2 - z1 ≠ 0 := sub_ne_zero.mpr (ne_of_gt hz)
  simp only [BilinearInterp]
  rw [if_neg (mul_ne_zero hx hy)]
  field_simp
  ring

/-- Instance of C18 for the rectangle `[0, 2] x [1, 4]` with rates 1, 2, 3, 6. -/
theorem C18_centre_average_witness :
    ((0 : ℚ) < 2 ∧ (1 : ℚ) < 4)
    ∧ Interp [(⟨0, 1, 1⟩ : RatePoint ℚ), ⟨2, 1, 2⟩, ⟨0, 4, 3⟩, ⟨2, 4, 6⟩]
        ((0 + 2) / 2) ((1 + 4) / 2) = (1 + 2 + 3 + 6) / 4 :=
  ⟨⟨by norm_num, by norm_num⟩,
    (C18_centre_average (0 : ℚ) 2 1 4 1 2 3 6 (by norm_num) (by norm_num)).1⟩

theorem nearestStep_eq (rho z : α) (acc : WithTop α × α) (pt : RatePoint α) :
    nearestStep rho z acc pt
      = if ((dist2 rho z pt : α) : WithTop α) < acc.1
        then (((dist2 rho z pt : α) : WithTop α), pt.rate) else acc := rfl

/-- Result of the nearest-neighbour loop started from `acc`: either no point
is below the initial minimum and the state is unchanged, or the state is that
of the first point of minimal squared distance. -/
theorem nearest_fold_first (rho z : α) (l : List (RatePoint α)) (acc : WithTop α × α) :
    ((∀ q ∈ l, acc.1 ≤ ((dist2 rho z q : α) : WithTop α))
        ∧ l.foldl (nearestStep rho z) acc = acc)
    ∨ ∃ pre p post, l = pre ++ p :: post
        ∧ ((dist2 rho z p : α) : WithTop α) < acc.1
        ∧ (∀ q ∈ l, dist2 rho z p ≤ dist2 rho z q)
        ∧ (∀ q ∈ pre, dist2 rho z p < dist2 rho z q)
        ∧ l.foldl (nearestStep rho z) acc = (((dist2 rho z p : α) : WithTop α), p.rate) := by
  induction l generalizing acc with
  | nil => exact Or.inl ⟨by simp, rfl⟩
  | cons a t ih =>
    simp only [List.foldl_cons]
    by_cases hlt : ((dist2 rho z a : α) : WithTop α) < acc.1
    · have hstep : nearestStep rho z acc a = (((dist2 rho z a : α) : WithTop α), a.rate) := by
        rw [nearestStep_eq, if_pos hlt]
      rw [hstep]
      rcases ih (((dist2 rho z a : α) : WithTop α), a.rate) with ⟨hall, hfold⟩ | h
      · right
        refine ⟨[], a, t, rfl, hlt, ?_, by simp, hfold⟩
        intro q hq
        rcases List.mem_cons.mp hq with rfl | hq'
        · exact le_refl _
        · exact WithTop.coe_le_coe.mp (hall q hq')
      · obtain ⟨pre, p, post, hl, hp, hmin, hpre, hfold⟩ := h
        have hpa : dist2 rho z p < dist2 rho z a := WithTop.coe_lt_coe.mp hp
        right
        refine ⟨a :: pre, p, post, by rw [hl]; rfl, lt_trans hp hlt, ?_, ?_, hfold⟩
        · intro q hq
          rcases List.mem_cons.mp hq with rfl | hq'
          · exact hpa.le
          · exact hmin q hq'
        · intro q hq
          rcases List.mem_cons.mp hq with rfl | hq'
          · exact hpa
          · exact hpre q hq'
    · have hstep : nearestStep rho z acc a = acc := by
        rw [nearestStep_eq, if_neg hlt]
      rw [hstep]
      have hle : acc.1 ≤ ((dist2 rho z a : α) : WithTop α) := not_lt.mp hlt
      rcases ih acc with ⟨hall, hfold⟩ | h
      · left
        refine ⟨?_, hfold⟩
        intro q hq
        rcases List.mem_cons.mp hq with rfl | hq'
        · exact hle
        · exact hall q hq'
      · obtain ⟨pre, p, post, hl, hp, hmin, hpre, hfold⟩ := h
        have hpa : dist2 rho z p < dist2 rho z a :=
          WithTop.coe_lt_coe.mp (lt_of_lt_of_le hp hle)
        right
        refine ⟨a :: pre, p, post, by rw [hl]; rfl, hp, ?_, ?_, hfold⟩
        · intro q hq
          rcases List.mem_cons.mp hq with rfl | hq'
          · exact hpa.le
          · exact hmin q hq'
        · intro q hq
          rcases List.mem_cons.mp hq with rfl | hq'
          · exact hpa
          · exact hpre q hq'

/-- C19: for a non-empty table and a query at which `FindBilinearNeighbors`
reports no rectangle, `Interp` returns the rate of a loaded point `p` whose
squared Euclidean distance to the query is minimal over all loaded points,
namely the first such point in load order: every point loaded before `p` is
strictly farther. -/
theorem C19_nearest_neighbour (pts : List (RatePoint α)) (rho z : α) (hne : pts ≠ [])
    (hnone : FindBilinearNeighbors pts rho z = none) :
    ∃ pre p post, pts = pre ++ p :: post
      ∧ (∀ q ∈ pts, dist2 rho z p ≤ dist2 rho z q)
      ∧ (∀ q ∈ pre, dist2 rho z p < dist2 rho z q)
      ∧ Interp pts rho z = p.rate := by
  unfold Interp
  rw [hnone]
  rcases nearest_fold_first rho z pts (⊤, 0) with ⟨hall, -⟩ | h
  · exfalso
    obtain ⟨a, t, rfl⟩ := List.exists_cons_of_ne_nil hne
    have := hall a (List.mem_cons_self _ _)
    simp at this
  · obtain ⟨pre, p, post, hl, -, hmin, hpre, hfold⟩ := h
    exact ⟨pre, p, post, hl, hmin, hpre, by simp only [hfold]⟩

/-- Instance of C19 at `tableLine` and the query `(0, 0)`: the second and the
third point are both at squared distance 1, the second one is returned. -/
theorem C19_nearest_neighbour_witness :
    (tableLine ≠ [] ∧ FindBilinearNeighbors tableLine 0 0 = none)
    ∧ (∃ pre p post, tableLine = pre ++ p :: post
      ∧ (∀ q ∈ tableLine, dist2 0 0 p ≤ dist2 0 0 q)
      ∧ (∀ q ∈ pre, dist2 0 0 p < dist2 0 0 q)
      ∧ Interp tableLine 0 0 = p.rate)
    ∧ Interp tableLine 0 0 = 4 :=
  ⟨⟨by decide, by decide!⟩,
    C19_nearest_neighbour tableLine 0 0 (by decide) (by decide!), by decide!⟩

/-- C20 at the unit square loaded in the order `(0,0,5)`, `(0,1,9)`,
`(1,1,11)`, `(1,0,7)`, query `(1/2, 1/2)`: the four corners of the bracketing
rectangle `r1 = 0`, `r2 = 1`, `z1 = 0`, `z2 = 1` are found and reach
`BilinearInterp` in load order; `x2 - x1 = 0`, so the degenerate branch is
taken and returns the average 6 of the first and the fourth point, which lie
at `(r1,z1)` and `(r2,z1)`; the average of the diagonal corners `(r1,z1)` and
`(r2,z2)` is 8.  At `tableStack`, same query, the four selected points all
lie at `(r1,z1) = (0,0)` (zero width and height), no point lies at
`(r2,z2) = (1,5)`, and the value is the average 5/2 of the first and the
fourth of them. -/
theorem C20_degenerate_not_diagonal :
    (FindBilinearNeighbors tableRing (1 / 2) (1 / 2) = some tableRing
      ∧ (tableRing.getD 1 ⟨0, 0, 0⟩).rho - (tableRing.getD 0 ⟨0, 0, 0⟩).rho = 0
      ∧ Interp tableRing (1 / 2) (1 / 2) = 6
      ∧ Interp tableRing (1 / 2) (1 / 2) = (1 / 2) * ((5 : ℚ) + 7)
      ∧ (1 / 2) * ((5 : ℚ) + 11) = 8)
    ∧ (FindBilinearNeighbors tableStack (1 / 2) (1 / 2)
          = some [⟨0, 0, 1⟩, ⟨0, 0, 2⟩, ⟨0, 0, 3⟩, ⟨0, 0, 4⟩]
      ∧ (∀ p ∈ tableStack, ¬ (p.rho = 1 ∧ p.z = 5))
      ∧ Interp tableStack (1 / 2) (1 / 2) = 5 / 2) :=
  ⟨⟨by decide!, by decide!, by decide!, by decide!, by norm_num⟩,
    ⟨by decide!, by decide!, by decide!⟩⟩

/-- C22 at the row-major unit square and the query `(5, 5)`: the query is
outside the bounding box, `Inside` is false, and `Interp` returns the rate 11
of the nearest loaded point `(1,1)`, not 0. -/
theorem C22_out_of_domain_not_zero :
    Inside tableRowMajor 5 5 = false
    ∧ FindBilinearNeighbors tableRowMajor 5 5 = none
    ∧ Interp tableRowMajor 5 5 = 11
    ∧ Interp tableRowMajor 5 5 ≠ 0 :=
  ⟨by decide!, by decide!, by decide!, by decide!⟩

theorem findBilinear_near (e : α) (he : 0 < e) (het : e < cornerTol) (he1 : e < 1) :
    FindBilinearNeighbors [⟨1, 0, 1⟩, ⟨1 + e, 0, 0⟩, ⟨1 + e, 1, 0⟩, ⟨3, 1, 0⟩] 2 (1 / 2)
      = some [⟨1, 0, 1⟩, ⟨1 + e, 0, 0⟩, ⟨1 + e, 1, 0⟩, ⟨3, 1, 0⟩] := by
  have h1 : (1 : α) + e ≤ 3 := by linarith
  have h2 : (1 : α) ≤ 1 + e := by linarith
  have h3 : ¬ ((1 : α) + e ≤ 1) := by linarith
  have hs1 : ([1, 1 + e, 1 + e, 3] : List α).insertionSort (· ≤ ·) = [1, 1 + e, 1 + e, 3] := by
    simp [List.insertionSort, List.orderedInsert, h1, h2]
  have hs2 : ([0, 0, 1, 1] : List α).insertionSort (· ≤ ·) = [0, 0, 1, 1] := by
    simp [List.insertionSort, List.orderedInsert]
  have hl1 : lowerBound ([1, 1 + e, 1 + e, 3] : List α) 2 = 3 := by
    have h4 : (1 : α) + e < 2 := by linarith
    have h5 : ¬ ((3 : α) < 2) := by norm_num
    have h6 : (1 : α) < 2 := by norm_num
    simp only [lowerBound, List.takeWhile, h4, h5, h6, decide_True, decide_False,
      List.length_cons, List.length_nil]
  have hl2 : lowerBound ([0, 0, 1, 1] : List α) (1 / 2) = 2 := by
    have h4 : (0 : α) < 1 / 2 := by norm_num
    have h5 : ¬ ((1 : α) < 1 / 2) := by norm_num
    simp only [lowerBound, List.takeWhile, h4, h5, decide_True, decide_False, List.length_cons,
      List.length_nil]
  have ht : (0 : α) < cornerTol := lt_trans he het
  have hc1 : |(1 : α) - (1 + e)| < cornerTol := by
    rw [abs_sub_comm, add_sub_cancel_left, abs_of_pos he]
    exact het
  have hc0 : |(0 : α)| < cornerTol := by simpa using ht
  unfold FindBilinearNeighbors
  simp only [List.map_cons, List.map_nil, hs1, hs2, hl1, hl2]
  simp only [List.getD_cons_succ, List.getD_cons_zero, Nat.add_one_sub_one, Nat.reduceSub,
    List.length_cons, List.length_nil, isCorner, sub_self, sub_zero, hc0, hc1, List.filter]
  simp

theorem interp_near (e : α) (he : 0 < e) (het : e < cornerTol) (he1 : e < 1) :
    Interp [⟨1, 0, 1⟩, ⟨1 + e, 0, 0⟩, ⟨1 + e, 1, 0⟩, ⟨3, 1, 0⟩] 2 (1 / 2) = (e - 1) / (2 * e) := by
  unfold Interp
  rw [findBilinear_near e he het he1]
  have hne : e ≠ 0 := ne_of_gt he
  simp only [BilinearInterp]
  rw [if_neg (by simpa using hne)]
  field_simp
  ring

theorem interp_tableNear : Interp (tableNear α) 2 (1 / 2) = (1 - 10 ^ 13) / 2 := by
  have he : (0 : α) < 1 / 10 ^ 13 := by positivity
  have het : (1 : α) / 10 ^ 13 < cornerTol := by
    unfold cornerTol
    apply one_div_lt_one_div_of_lt (by positivity)
    norm_num
  have he1 : (1 : α) / 10 ^ 13 < 1 := by
    rw [div_lt_one (by positivity)]
    norm_num
  have h := interp_near (1 / 10 ^ 13 : α) he het he1
  unfold tableNear
  rw [h]
  field_simp

/-- C27 at `tableNear`, query `(2, 1/2)`: all loaded rates lie in `[0, 1]`;
the bracketing values are `r1 = 1 + 1e-13`, `r2 = 3`, `z1 = 0`, `z2 = 1`; the
points at rho `1` and `1 + 1e-13` both match the corner `(r1, z1)` within the
tolerance, four points are selected although none lies at `(r2, z1)`, and
`BilinearInterp` extrapolates with `x1 = 1`, `x2 = 1 + 1e-13`: the value is
`(1 - 10^13)/2`, below the smallest loaded rate and negative. -/
theorem C27_overshoot_near_duplicates :
    (∀ p ∈ tableNear ℚ, 0 ≤ p.rate ∧ p.rate ≤ 1)
    ∧ (∀ p ∈ tableNear ℚ, ¬ (p.rho = 3 ∧ p.z = 0))
    ∧ Inside (tableNear ℚ) 2 (1 / 2) = true
    ∧ FindBilinearNeighbors (tableNear ℚ) 2 (1 / 2) = some (tableNear ℚ)
    ∧ Interp (tableNear ℚ) 2 (1 / 2) = (1 - 10 ^ 13) / 2
    ∧ Interp (tableNear ℚ) 2 (1 / 2) < 0 :=
  ⟨by decide!, by decide!, by decide!, by decide!, interp_tableNear, by
    rw [interp_tableNear]
    norm_num⟩

/-- C30 at the query `(1/2, 1/2)`.  On `tableStack` the bracketing rectangle is
`r1 = 0`, `r2 = 1`, `z1 = 0`, `z2 = 5`; no loaded point lies at `(r2,z1)`,
`(r1,z2)` or `(r2,z2)`, yet four points match `(r1,z1)` and the function
returns true with these four.  On `tableExtra` every corner of the unit square
carries a loaded point, yet five points match and the function returns
false. -/
theorem C30_count_is_not_rectangle :
    (FindBilinearNeighbors tableStack (1 / 2) (1 / 2)
        = some [⟨0, 0, 1⟩, ⟨0, 0, 2⟩, ⟨0, 0, 3⟩, ⟨0, 0, 4⟩]
      ∧ (∀ p ∈ tableStack, ¬ (p.rho = 1 ∧ p.z = 0) ∧ ¬ (p.rho = 0 ∧ p.z = 5)
          ∧ ¬ (p.rho = 1 ∧ p.z = 5)))
    ∧ (FindBilinearNeighbors tableExtra (1 / 2) (1 / 2) = none
      ∧ (∃ p ∈ tableExtra, p.rho = 0 ∧ p.z = 0) ∧ (∃ p ∈ tableExtra, p.rho = 1 ∧ p.z = 0)
      ∧ (∃ p ∈ tableExtra, p.rho = 0 ∧ p.z = 1) ∧ (∃ p ∈ tableExtra, p.rho = 1 ∧ p.z = 1)) :=
  ⟨⟨by decide!, by decide!⟩, ⟨by decide!, by decide!, by decide!, by decide!, by decide!⟩⟩

theorem foldl_loadLine {β : Type} (extract : String → Option (RatePoint β)) (delim : Char)
    (lines : List String) (acc : List (RatePoint β)) :
    lines.foldl (loadLine extract delim) acc = acc ++ specLoaded extract lines delim := by
  induction lines generalizing acc with
  | nil => simp [specLoaded]
  | cons l ls ih =>
    rw [List.foldl_cons, ih]
    unfold specLoaded loadLine skipLine
    by_cases h1 : l = ""
    · simp [List.filterMap_cons, h1]
    · by_cases h2 : l.get 0 = '#'
      · simp [List.filterMap_cons, h1, h2]
      · cases hx : extract (replaceDelim l delim) with
        | none => simp [List.filterMap_cons, h1, h2, hx]
        | some pt => simp [List.filterMap_cons, h1, h2, hx]

/-- C21: a source that cannot be opened makes the construction fail; for a
readable source the loaded point list is exactly the sequence, in file order,
of the triples extracted from the lines that are non-empty and do not start
with `#` (the delimiter replaced by a space; lines whose extraction fails are
skipped), and the construction fails if and only if that sequence is empty;
so a successfully constructed table is never empty. -/
theorem C21_constructor {β : Type} (extract : String → Option (RatePoint β)) (delim : Char) :
    (∃ msg, construct extract none delim = Except.error msg)
    ∧ (∀ lines : List String,
        (specLoaded extract lines delim ≠ [] →
          construct extract (some lines) delim = Except.ok (specLoaded extract lines delim))
        ∧ (specLoaded extract lines delim = [] →
          ∃ msg, construct extract (some lines) delim = Except.error msg))
    ∧ (∀ file pts, construct extract file delim = Except.ok pts → pts ≠ []) := by
  have hsome : ∀ lines : List String,
      (specLoaded extract lines delim ≠ [] →
        construct extract (some lines) delim = Except.ok (specLoaded extract lines delim))
      ∧ (specLoaded extract lines delim = [] →
        ∃ msg, construct extract (some lines) delim = Except.error msg) := by
    intro lines
    have hf := foldl_loadLine extract delim lines []
    rw [List.nil_append] at hf
    constructor
    · intro hne
      simp only [construct, hf]
      rw [if_neg]
      simpa [List.isEmpty_iff] using hne
    · intro he
      exact ⟨"RateTable2D: no data loaded from file.", by simp [construct, hf, he]⟩
  refine ⟨⟨_, rfl⟩, hsome, ?_⟩
  intro file pts hok
  cases file with
  | none => simp [construct] at hok
  | some lines =>
    by_cases he : specLoaded extract lines delim = []
    · obtain ⟨msg, hmsg⟩ := (hsome lines).2 he
      rw [hmsg] at hok
      cases hok
    · rw [(hsome lines).1 he] at hok
      cases hok
      exact he

/-- Instance of C21 for a text with a comment line, an empty line, two data
lines separated by `,` and a line that is not a triple. -/
theorem C21_constructor_witness :
    specLoaded extractDigits ["# rho z rate", "", "1,2,3", "x", "4,5,6"] ',' ≠ []
    ∧ construct extractDigits (some ["# rho z rate", "", "1,2,3", "x", "4,5,6"]) ','
        = Except.ok (specLoaded extractDigits ["# rho z rate", "", "1,2,3", "x", "4,5,6"] ',')
    ∧ specLoaded extractDigits ["# rho z rate", "", "1,2,3", "x", "4,5,6"] ','
        = [⟨1, 2, 3⟩, ⟨4, 5, 6⟩] :=
  ⟨by decide!,
    ((C21_constructor extractDigits ',').2.1 ["# rho z rate", "", "1,2,3", "x", "4,5,6"]).1
      (by decide!),
    by decide!⟩

end RateTable2D

namespace SteppingAction

/-! ## Stepping action -/

open RateTable2D

variable {α : Type} [LinearOrderedField α]

theorem samplePoint_eq (env : Env α) (C P0 P1 : ThreeVector α) (i : Nat) :
    samplePoint env C P0 P1 i
      = (env.hypot ((specSamplePoint P0 P1 i).x - C.x) ((specSamplePoint P0 P1 i).y - C.y),
         (specSamplePoint P0 P1 i).z - C.z) := by
  simp only [samplePoint, specSamplePoint, ThreeVector.add, ThreeVector.sub, ThreeVector.scale, N,
    Nat.cast_ofNat]
  have e : ∀ a b : α, a + (b - a) * (((i : α) + 1 / 2) / 20)
      = a + (((i : α) + 1 / 2) / 20) * (b - a) := fun a b => by ring
  rw [e, e, e]

theorem sampleStep_eq (env : Env α) (C P0 P1 : ThreeVector α) (sum : α) (i : Nat) :
    sampleStep env C P0 P1 sum i = sum + specContribution env C (specSamplePoint P0 P1 i) := by
  unfold sampleStep specContribution
  simp only [samplePoint_eq]
  split <;> simp

theorem foldl_sampleStep (env : Env α) (C P0 P1 : ThreeVector α) (n : Nat) :
    (List.range n).foldl (sampleStep env C P0 P1) 0
      = ∑ i in Finset.range n, specContribution env C (specSamplePoint P0 P1 i) := by
  induction n with
  | zero => simp
  | succ n ih =>
    rw [List.range_succ, List.foldl_append, ih, Finset.sum_range_succ]
    simp [sampleStep_eq]

theorem sumLambda_eq_sum (env : Env α) (C P0 P1 : ThreeVector α) :
    sumLambda env C P0 P1
      = ∑ i in Finset.range 20, specContribution env C (specSamplePoint P0 P1 i) :=
  foldl_sampleStep env C P0 P1 20

theorem specContribution_const (env : Env α) (c : α) (hc : ∀ p ∈ env.table, p.rate = c)
    (C Q : ThreeVector α) :
    specContribution env C Q
      = if Inside env.table (env.hypot (Q.x - C.x) (Q.y - C.y)) (Q.z - C.z) then c else 0 := by
  unfold specContribution
  split
  · rename_i hin
    apply interp_const _ _ _ _ hc
    left
    intro hnil
    rw [hnil] at hin
    simp [Inside] at hin
  · rfl

theorem specContribution_nonneg (env : Env α) (c : α) (hc : ∀ p ∈ env.table, p.rate = c)
    (hpos : 0 < c) (C Q : ThreeVector α) : 0 ≤ specContribution env C Q := by
  rw [specContribution_const env c hc]
  split
  · exact hpos.le
  · exact le_refl _

theorem sumLambda_zero (env : Env α) (hzero : ∀ p ∈ env.table, p.rate = 0)
    (C P0 P1 : ThreeVector α) : sumLambda env C P0 P1 = 0 := by
  rw [sumLambda_eq_sum]
  apply Finset.sum_eq_zero
  intro i _
  rw [specContribution_const env 0 hzero]
  simp

/-- Instance of C7 at `envUnit`, `stateInside` and the exit step `stepBelow`. -/
theorem shellExit_no (env : Env α) (s : State α) (step : G4Step α)
    (info : ShellSegment α) (ci : ConeInfo α)
    (hmu : step.isMuAlpha = true) (hlv : step.lv = LogicalVolume.other)
    (hinfo : s.userInfo = some info) (hin : info.inside = true)
    (hci : subscript env.conesInfo info.coneIdx = some ci)
    (hu : ¬ env.uniform s.rngDraws < Pint env ci info step) :
    UserSteppingAction env s step
      = some { s with userInfo := some { info with inside := false }
                      rngDraws := s.rngDraws + 1 } := by
  simp [UserSteppingAction, hmu, hlv, hinfo, hin, hci, hu]

theorem shellExit_yes (env : Env α) (s : State α) (step : G4Step α)
    (info : ShellSegment α) (ci : ConeInfo α) (coneIon panelIon : List Nat)
    (hmu : step.isMuAlpha = true) (hlv : step.lv = LogicalVolume.other)
    (hinfo : s.userInfo = some info) (hin : info.inside = true)
    (hci : subscript env.conesInfo info.coneIdx = some ci)
    (hcone : increment s.coneIon info.coneIdx = some coneIon)
    (hpanel : increment s.panelIon ci.panelIdx = some panelIon)
    (hu : env.uniform s.rngDraws < Pint env ci info step) :
    UserSteppingAction env s step
      = some { s with userInfo := some { info with inside := false }
                      rngDraws := s.rngDraws + 1
                      stepLength := 0
                      trackStatus := TrackStatus.fKillTrackAndSecondaries
                      gEventIonizationOccurred := true
                      coneIon := coneIon, panelIon := panelIon } := by
  simp [UserSteppingAction, hmu, hlv, hinfo, hin, hci, hcone, hpanel, hu]

theorem envUnit_contribution_origin (i : Nat) :
    specContribution envUnit ⟨0, 0, 0⟩
      (specSamplePoint ((⟨0, 0, 0⟩ : ThreeVector ℝ).scale (1 / 1000))
        ((⟨0, 0, 0⟩ : ThreeVector ℝ).scale (1 / 1000)) i) = 1 := by
  rw [specContribution_const envUnit 1 (by simp [envUnit])]
  have hin : Inside envUnit.table 0 0 = true := by
    rw [inside_iff_exists]
    simp [envUnit]
  simp [specSamplePoint, ThreeVector.scale, envUnit] at hin ⊢
  exact hin

theorem envUnit_contribution_below (i : Nat) :
    specContribution envUnit ⟨0, 0, 0⟩
      (specSamplePoint ((⟨0, 0, 0⟩ : ThreeVector ℝ).scale (1 / 1000))
        ((⟨0, 0, -1000⟩ : ThreeVector ℝ).scale (1 / 1000)) i) = 0 := by
  rw [specContribution_const envUnit 1 (by simp [envUnit])]
  rw [if_neg]
  rw [inside_iff_exists]
  rintro ⟨-, -, ⟨p, hp, hz⟩, -⟩
  have hi : (0 : ℝ) ≤ (i : ℝ) := Nat.cast_nonneg i
  simp only [specSamplePoint, ThreeVector.scale] at hz
  simp only [envUnit, List.mem_cons, List.mem_singleton, List.not_mem_nil, or_false] at hp
  rcases hp with rfl | rfl
  · norm_num at hz
    linarith
  · norm_num at hz
    linarith

theorem Pint_envUnit_origin (lv : LogicalVolume) :
    Pint envUnit ⟨⟨0, 0, 0⟩, 0, 0, 0⟩ infoInside (stepAtOrigin lv) = 1 - Real.exp (-1) := by
  unfold Pint
  simp only [sumLambda_eq_sum, infoInside, stepAtOrigin, envUnit_contribution_origin]
  simp [envUnit, N]

theorem Pint_envUnit_below :
    Pint envUnit ⟨⟨0, 0, 0⟩, 0, 0, 0⟩ infoInside stepBelow = 0 := by
  unfold Pint
  simp only [sumLambda_eq_sum, infoInside, stepBelow, envUnit_contribution_below]
  simp [envUnit]

theorem one_sub_exp_neg_one_pos : (0 : ℝ) < 1 - Real.exp (-1) := by
  have : Real.exp (-1) < 1 := Real.exp_lt_one_iff.mpr (by norm_num)
  linarith

/-- C5: on a shell-exit step (case 3 of the stepping action: the pre-step
volume is neither the cone, whose steps are captures, nor a shell, and the
record is inside) with computed probability `P` and drawn value `u`, the
entry cone index and its panel index being valid subscripts: if `u < P` the
per-cone ionisation counter at the entry cone index and the per-panel counter
of that cone's panel are incremented by 1 (unsigned, modulo `2^32`), the
track is killed, the event-ionisation flag is set and nothing else but the
record's inside flag and the draw count changes; if not `u < P` only the
inside flag and the draw count change, so no counter changes and the track
is not killed. -/
theorem C5_shell_exit_decision (env : Env α) (s : State α) (step : G4Step α)
    (info : ShellSegment α) (ci : ConeInfo α) (cIon pIon : Nat)
    (hmu : step.isMuAlpha = true) (hlv : step.lv = LogicalVolume.other)
    (hinfo : s.userInfo = some info) (hin : info.inside = true)
    (hci : subscript env.conesInfo info.coneIdx = some ci)
    (hcone : subscript s.coneIon info.coneIdx = some cIon)
    (hpanel : subscript s.panelIon ci.panelIdx = some pIon) :
    (env.uniform s.rngDraws < Pint env ci info step →
      UserSteppingAction env s step
        = some { s with
            userInfo := some { info with inside := false }
            rngDraws := s.rngDraws + 1
            stepLength := 0
            trackStatus := TrackStatus.fKillTrackAndSecondaries
            gEventIonizationOccurred := true
            coneIon := s.coneIon.set info.coneIdx.toNat ((cIon + 1) % UINT_MOD)
            panelIon := s.panelIon.set ci.panelIdx.toNat ((pIon + 1) % UINT_MOD) })
    ∧ (¬ env.uniform s.rngDraws < Pint env ci info step →
      UserSteppingAction env s step
        = some { s with
            userInfo := some { info with inside := false }
            rngDraws := s.rngDraws + 1 }) := by
  constructor
  · intro hu
    simp [UserSteppingAction, hmu, hlv, hinfo, hin, hci, increment, hcone, hpanel, hu]
  · intro hu
    simp [UserSteppingAction, hmu, hlv, hinfo, hin, hci, hu]

/-- Instance of C5 at `envUnit`, `stateInside` and an exit step at the origin. -/
theorem C5_shell_exit_decision_witness :
    ((stepAtOrigin LogicalVolume.other).isMuAlpha = true
      ∧ (stepAtOrigin LogicalVolume.other).lv = LogicalVolume.other
      ∧ stateInside.userInfo = some infoInside ∧ infoInside.inside = true
      ∧ subscript envUnit.conesInfo infoInside.coneIdx = some ⟨⟨0, 0, 0⟩, 0, 0, 0⟩
      ∧ subscript stateInside.coneIon infoInside.coneIdx = some 0
      ∧ subscript stateInside.panelIon 0 = some 0)
    ∧ (envUnit.uniform stateInside.rngDraws
          < Pint envUnit ⟨⟨0, 0, 0⟩, 0, 0, 0⟩ infoInside (stepAtOrigin LogicalVolume.other) →
        UserSteppingAction envUnit stateInside (stepAtOrigin LogicalVolume.other)
          = some { stateInside with
              userInfo := some { infoInside with inside := false }
              rngDraws := stateInside.rngDraws + 1
              stepLength := 0
              trackStatus := TrackStatus.fKillTrackAndSecondaries
              gEventIonizationOccurred := true
              coneIon := stateInside.coneIon.set infoInside.coneIdx.toNat ((0 + 1) % UINT_MOD)
              panelIon := stateInside.panelIon.set (0 : Int).toNat ((0 + 1) % UINT_MOD) }) :=
  ⟨⟨rfl, rfl, rfl, rfl, rfl, rfl, rfl⟩,
    (C5_shell_exit_decision envUnit stateInside (stepAtOrigin LogicalVolume.other) infoInside
      ⟨⟨0, 0, 0⟩, 0, 0, 0⟩ 0 0 rfl rfl rfl rfl rfl rfl rfl).1⟩

/-- C6: the probability computed on a shell exit equals
`1 - exp(-S * (T1 - T0) / 20)`, `S` being the sum over `i = 0..19` of the
contribution of `Q_i = P0 + ((i + 0.5)/20)(P1 - P0)`: `Interp(rho_i, z_i)` if
`Inside(rho_i, z_i)` and 0 otherwise, with `rho_i` the horizontal distance of
`Q_i` from the entry cone's base centre and `z_i` its height above it.  Here
`P0`, `P1` are the entry position of the record and the position of the exit
step in metres, `T0`, `T1` the entry time and the time of the exit step. -/
theorem C6_probability_formula (env : Env α) (ci : ConeInfo α) (info : ShellSegment α)
    (step : G4Step α) :
    Pint env ci info step
      = specProbability env ci.baseCentre (info.entryPos.scale (1 / 1000))
          (step.position.scale (1 / 1000)) info.entryTime step.globalTime := by
  unfold Pint specProbability
  simp only [sumLambda_eq_sum, N, Nat.cast_ofNat]
  congr 2
  ring

/-- C7 (amended): on a shell-exit step the rate is sampled along the segment
from the record's entry position to the track position reported by the exit
step itself (both in metres); the computed probability and the outcome of the
step do not depend on the record's last-observed-inside position, which is
only carried along in the record. -/
theorem C7_segment_ends_at_exit_position (env : Env α) (s : State α) (step : G4Step α)
    (info : ShellSegment α) (q : ThreeVector α)
    (hmu : step.isMuAlpha = true) (hlv : step.lv = LogicalVolume.other)
    (hin : info.inside = true) :
    (∀ ci : ConeInfo α,
      Pint env ci info step
        = 1 - env.exp (-(sumLambda env ci.baseCentre (info.entryPos.scale (1 / 1000))
            (step.position.scale (1 / 1000))) * ((step.globalTime - info.entryTime) / (N : α)))
      ∧ Pint env ci { info with lastInsidePos := q } step = Pint env ci info step)
    ∧ UserSteppingAction env { s with userInfo := some { info with lastInsidePos := q } } step
        = (UserSteppingAction env { s with userInfo := some info } step).map
            (fun r => { r with userInfo := some { info with inside := false, lastInsidePos := q } })
      := by
  refine ⟨fun ci => ⟨rfl, rfl⟩, ?_⟩
  simp only [UserSteppingAction, hmu, hlv, hin, Option.getD_some]
  cases hci : subscript env.conesInfo info.coneIdx with
  | none => simp
  | some ci =>
    have hP : ∀ b : Bool, Pint env ci
        { entryPos := info.entryPos, entryTime := info.entryTime, inside := b
          lastInsidePos := q, coneIdx := info.coneIdx } step = Pint env ci info step :=
      fun _ => rfl
    by_cases hu : env.uniform s.rngDraws < Pint env ci info step
    · cases h1 : increment s.coneIon info.coneIdx <;>
        cases h2 : increment s.panelIon ci.panelIdx <;> simp [hP, hu, h1, h2]
    · simp [hP, hu]

/-- Instance of C7 at `envUnit`, `stateInside` and the exit step `stepBelow`. -/
theorem C7_segment_ends_at_exit_position_witness :
    (stepBelow.isMuAlpha = true ∧ stepBelow.lv = LogicalVolume.other
      ∧ infoInside.inside = true)
    ∧ UserSteppingAction envUnit
          { stateInside with userInfo := some { infoInside with lastInsidePos := ⟨1, 2, 3⟩ } }
          stepBelow
        = (UserSteppingAction envUnit { stateInside with userInfo := some infoInside }
            stepBelow).map
            (fun r => { r with
              userInfo := some { infoInside with inside := false, lastInsidePos := ⟨1, 2, 3⟩ } }) :=
  ⟨⟨rfl, rfl, rfl⟩,
    (C7_segment_ends_at_exit_position envUnit stateInside stepBelow infoInside ⟨1, 2, 3⟩
      rfl rfl rfl).2⟩

/-- C7 fails as stated: for the record `infoInside` (entry and last-inside
position at the origin) and the exit step `stepBelow`, whose track position
lies one metre below, the computed probability is 0, whereas sampling from
the entry position to the last-inside position gives `1 - exp(-1) > 0`; with
the drawn value 0 the particle is not ionised, while the same record with an
exit step at the origin is ionised. -/
theorem C7_counterexample :
    stateInside.userInfo = some infoInside
    ∧ Pint envUnit ⟨⟨0, 0, 0⟩, 0, 0, 0⟩ infoInside stepBelow = 0
    ∧ Pint envUnit ⟨⟨0, 0, 0⟩, 0, 0, 0⟩ infoInside
        { stepBelow with position := infoInside.lastInsidePos } = 1 - Real.exp (-1)
    ∧ Pint envUnit ⟨⟨0, 0, 0⟩, 0, 0, 0⟩ infoInside stepBelow
        ≠ Pint envUnit ⟨⟨0, 0, 0⟩, 0, 0, 0⟩ infoInside
            { stepBelow with position := infoInside.lastInsidePos }
    ∧ UserSteppingAction envUnit stateInside stepBelow
        = some { stateInside with
            userInfo := some { infoInside with inside := false }, rngDraws := 1 }
    ∧ UserSteppingAction envUnit stateInside
          { stepBelow with position := infoInside.lastInsidePos }
        = some { stateInside with
            userInfo := some { infoInside with inside := false }, rngDraws := 1
            stepLength := 0, trackStatus := TrackStatus.fKillTrackAndSecondaries
            gEventIonizationOccurred := true, coneIon := [1], panelIon := [1] } := by
  have e : ({ stepBelow with position := infoInside.lastInsidePos } : G4Step ℝ)
      = stepAtOrigin LogicalVolume.other := rfl
  have hci : subscript envUnit.conesInfo infoInside.coneIdx = some ⟨⟨0, 0, 0⟩, 0, 0, 0⟩ := rfl
  rw [e]
  refine ⟨rfl, Pint_envUnit_below, Pint_envUnit_origin _, ?_, ?_, ?_⟩
  · rw [Pint_envUnit_below, Pint_envUnit_origin]
    exact ne_of_lt one_sub_exp_neg_one_pos
  · have hu : ¬ envUnit.uniform stateInside.rngDraws
        < Pint envUnit ⟨⟨0, 0, 0⟩, 0, 0, 0⟩ infoInside stepBelow := by
      rw [Pint_envUnit_below]
      simp [envUnit]
    exact shellExit_no envUnit stateInside stepBelow infoInside _ rfl rfl rfl rfl hci hu
  · have hu : envUnit.uniform stateInside.rngDraws
        < Pint envUnit ⟨⟨0, 0, 0⟩, 0, 0, 0⟩ infoInside (stepAtOrigin LogicalVolume.other) := by
      rw [Pint_envUnit_origin]
      exact one_sub_exp_neg_one_pos
    exact shellExit_yes envUnit stateInside (stepAtOrigin LogicalVolume.other) infoInside _
      [1] [1] rfl rfl rfl rfl hci rfl rfl hu

/-- C8: if every loaded rate is 0 (and `exp(0) = 1`), then on every shell-exit
step, whatever the positions, times and (valid) cone, the computed
probability is exactly 0, and for a drawn value `u >= 0` the step only resets
the inside flag and counts the draw: the track is not killed and no counter
changes. -/
theorem C8_zero_table_never_ionizes (env : Env α) (s : State α) (step : G4Step α)
    (info : ShellSegment α) (ci : ConeInfo α)
    (hzero : ∀ p ∈ env.table, p.rate = 0) (hexp : env.exp 0 = 1)
    (hu : 0 ≤ env.uniform s.rngDraws)
    (hmu : step.isMuAlpha = true) (hlv : step.lv = LogicalVolume.other)
    (hinfo : s.userInfo = some info) (hin : info.inside = true)
    (hci : subscript env.conesInfo info.coneIdx = some ci) :
    Pint env ci info step = 0
    ∧ UserSteppingAction env s step
        = some { s with
            userInfo := some { info with inside := false }
            rngDraws := s.rngDraws + 1 } := by
  have hP : Pint env ci info step = 0 := by
    unfold Pint
    simp only [sumLambda_zero env hzero, neg_zero, zero_mul, hexp, sub_self]
  refine ⟨hP, ?_⟩
  have hnot : ¬ env.uniform s.rngDraws < Pint env ci info step := by
    rw [hP]
    exact not_lt.mpr hu
  simp [UserSteppingAction, hmu, hlv, hinfo, hin, hci, hnot]

/-- Instance of C8 at `envZero`, `stateInside` and an exit step at the origin. -/
theorem C8_zero_table_never_ionizes_witness :
    ((∀ p ∈ envZero.table, p.rate = 0) ∧ envZero.exp 0 = 1
      ∧ 0 ≤ envZero.uniform stateInside.rngDraws
      ∧ (stepAtOrigin LogicalVolume.other).isMuAlpha = true
      ∧ (stepAtOrigin LogicalVolume.other).lv = LogicalVolume.other
      ∧ stateInside.userInfo = some infoInside ∧ infoInside.inside = true
      ∧ subscript envZero.conesInfo infoInside.coneIdx = some ⟨⟨0, 0, 0⟩, 0, 0, 0⟩)
    ∧ Pint envZero ⟨⟨0, 0, 0⟩, 0, 0, 0⟩ infoInside (stepAtOrigin LogicalVolume.other) = 0
    ∧ UserSteppingAction envZero stateInside (stepAtOrigin LogicalVolume.other)
        = some { stateInside with
            userInfo := some { infoInside with inside := false }
            rngDraws := stateInside.rngDraws + 1 } :=
  ⟨⟨by simp [envZero], Real.exp_zero, le_refl _, rfl, rfl, rfl, rfl, rfl⟩,
    C8_zero_table_never_ionizes envZero stateInside (stepAtOrigin LogicalVolume.other)
      infoInside ⟨⟨0, 0, 0⟩, 0, 0, 0⟩ (by simp [envZero]) Real.exp_zero (le_refl _)
      rfl rfl rfl rfl rfl⟩

/-- C9: for a table whose rates all equal one constant `c > 0`, a strictly
increasing `exp`, and a fixed crossing geometry (cone, entry position, exit
position), the probability computed at shell exit is monotonically increasing
in the dwell time `T1 - T0`, and strictly increasing when at least one of the
20 sample points lies inside the table's domain. -/
theorem C9_probability_monotone_in_dwell (env : Env α) (ci : ConeInfo α)
    (info : ShellSegment α) (step : G4Step α) (c : α)
    (hc : ∀ p ∈ env.table, p.rate = c) (hpos : 0 < c) (hexp : StrictMono env.exp)
    (T0 T1 T0' T1' : α) :
    (T1 - T0 ≤ T1' - T0' →
      Pint env ci { info with entryTime := T0 } { step with globalTime := T1 }
        ≤ Pint env ci { info with entryTime := T0' } { step with globalTime := T1' })
    ∧ (T1 - T0 < T1' - T0' →
        (∃ i, i < 20 ∧ Inside env.table
          (samplePoint env ci.baseCentre (info.entryPos.scale (1 / 1000))
            (step.position.scale (1 / 1000)) i).1
          (samplePoint env ci.baseCentre (info.entryPos.scale (1 / 1000))
            (step.position.scale (1 / 1000)) i).2 = true) →
        Pint env ci { info with entryTime := T0 } { step with globalTime := T1 }
          < Pint env ci { info with entryTime := T0' } { step with globalTime := T1' }) := by
  have hS : 0 ≤ sumLambda env ci.baseCentre (info.entryPos.scale (1 / 1000))
      (step.position.scale (1 / 1000)) := by
    rw [sumLambda_eq_sum]
    exact Finset.sum_nonneg (fun i _ => specContribution_nonneg env c hc hpos _ _)
  have h20 : (0 : α) < (N : α) := by simp [N]
  constructor
  · intro hd
    unfold Pint
    simp only
    apply sub_le_sub_left
    apply hexp.monotone
    have : (T1 - T0) / (N : α) ≤ (T1' - T0') / (N : α) := div_le_div_of_nonneg_right hd h20.le
    nlinarith
  · rintro hd ⟨i, hi, hin⟩
    have hSpos : 0 < sumLambda env ci.baseCentre (info.entryPos.scale (1 / 1000))
        (step.position.scale (1 / 1000)) := by
      rw [sumLambda_eq_sum]
      apply Finset.sum_pos'
      · exact fun j _ => specContribution_nonneg env c hc hpos _ _
      · refine ⟨i, Finset.mem_range.mpr hi, ?_⟩
        rw [specContribution_const env c hc]
        rw [samplePoint_eq] at hin
        simp only at hin
        rw [if_pos hin]
        exact hpos
    unfold Pint
    simp only
    apply sub_lt_sub_left
    apply hexp
    have : (T1 - T0) / (N : α) < (T1' - T0') / (N : α) := div_lt_div_of_pos_right hd h20
    nlinarith

/-- Instance of C9 at `envUnit` (constant rate 1, real exponential) for the
crossing that stays at the origin, dwell times 1 and 2. -/
theorem C9_probability_monotone_in_dwell_witness :
    ((∀ p ∈ envUnit.table, p.rate = 1) ∧ (0 : ℝ) < 1 ∧ StrictMono envUnit.exp
      ∧ (1 : ℝ) - 0 < 2 - 0
      ∧ ∃ i, i < 20 ∧ Inside envUnit.table
          (samplePoint envUnit (⟨0, 0, 0⟩ : ThreeVector ℝ) (infoInside.entryPos.scale (1 / 1000))
            ((stepAtOrigin LogicalVolume.other).position.scale (1 / 1000)) i).1
          (samplePoint envUnit (⟨0, 0, 0⟩ : ThreeVector ℝ) (infoInside.entryPos.scale (1 / 1000))
            ((stepAtOrigin LogicalVolume.other).position.scale (1 / 1000)) i).2 = true)
    ∧ Pint envUnit ⟨⟨0, 0, 0⟩, 0, 0, 0⟩ { infoInside with entryTime := 0 }
          { stepAtOrigin LogicalVolume.other with globalTime := 1 }
        < Pint envUnit ⟨⟨0, 0, 0⟩, 0, 0, 0⟩ { infoInside with entryTime := 0 }
          { stepAtOrigin LogicalVolume.other with globalTime := 2 } := by
  have hc : ∀ p ∈ envUnit.table, p.rate = 1 := by simp [envUnit]
  have hin : ∃ i, i < 20 ∧ Inside envUnit.table
      (samplePoint envUnit (⟨0, 0, 0⟩ : ThreeVector ℝ) (infoInside.entryPos.scale (1 / 1000))
        ((stepAtOrigin LogicalVolume.other).position.scale (1 / 1000)) i).1
      (samplePoint envUnit (⟨0, 0, 0⟩ : ThreeVector ℝ) (infoInside.entryPos.scale (1 / 1000))
        ((stepAtOrigin LogicalVolume.other).position.scale (1 / 1000)) i).2 = true := by
    refine ⟨0, by norm_num, ?_⟩
    rw [inside_iff_exists]
    simp [samplePoint, ThreeVector.scale, ThreeVector.add, ThreeVector.sub, infoInside,
      stepAtOrigin, envUnit]
  exact ⟨⟨hc, one_pos, Real.exp_strictMono, by norm_num, hin⟩,
    (C9_probability_monotone_in_dwell envUnit ⟨⟨0, 0, 0⟩, 0, 0, 0⟩ infoInside
      (stepAtOrigin LogicalVolume.other) 1 hc one_pos Real.exp_strictMono 0 1 0 2).2
      (by norm_num) hin⟩

/-- C10: a step of the tracked particle whose pre-step volume is the cone with
copy number `k` (a valid subscript, as is the panel index of cone `k`)
increments the per-cone capture counter `k` and the per-panel capture counter
of cone `k`'s panel by 1 (unsigned, modulo `2^32`), kills the track and sets
the event-capture flag; the ionisation counters, the number of random draws
and the transit record are unchanged, whatever the record's state. -/
theorem C10_capture_step (env : Env α) (s : State α) (step : G4Step α)
    (ci : ConeInfo α) (cCap pCap : Nat)
    (hmu : step.isMuAlpha = true) (hlv : step.lv = LogicalVolume.cone)
    (hci : subscript env.conesInfo step.copyNo = some ci)
    (hcone : subscript s.coneCap step.copyNo = some cCap)
    (hpanel : subscript s.panelCap ci.panelIdx = some pCap) :
    UserSteppingAction env s step
      = some { s with
          gEventCaptureOccurred := true
          coneCap := s.coneCap.set step.copyNo.toNat ((cCap + 1) % UINT_MOD)
          panelCap := s.panelCap.set ci.panelIdx.toNat ((pCap + 1) % UINT_MOD)
          trackStatus := TrackStatus.fStopAndKill } := by
  simp [UserSteppingAction, hmu, hlv, hci, increment, hcone, hpanel]

/-- Instance of C10 at `envUnit`, `stateInside` (record inside) and a cone step. -/
theorem C10_capture_step_witness :
    ((stepAtOrigin LogicalVolume.cone).isMuAlpha = true
      ∧ (stepAtOrigin LogicalVolume.cone).lv = LogicalVolume.cone
      ∧ subscript envUnit.conesInfo (stepAtOrigin LogicalVolume.cone).copyNo
          = some ⟨⟨0, 0, 0⟩, 0, 0, 0⟩
      ∧ subscript stateInside.coneCap (stepAtOrigin LogicalVolume.cone).copyNo = some 0
      ∧ subscript stateInside.panelCap 0 = some 0)
    ∧ UserSteppingAction envUnit stateInside (stepAtOrigin LogicalVolume.cone)
        = some { stateInside with
            gEventCaptureOccurred := true
            coneCap := stateInside.coneCap.set
              (stepAtOrigin LogicalVolume.cone).copyNo.toNat ((0 + 1) % UINT_MOD)
            panelCap := stateInside.panelCap.set (0 : Int).toNat ((0 + 1) % UINT_MOD)
            trackStatus := TrackStatus.fStopAndKill } :=
  ⟨⟨rfl, rfl, rfl, rfl, rfl⟩,
    C10_capture_step envUnit stateInside (stepAtOrigin LogicalVolume.cone)
      ⟨⟨0, 0, 0⟩, 0, 0, 0⟩ 0 0 rfl rfl rfl rfl rfl⟩

theorem shellEnter (env : Env α) (s : State α) (step : G4Step α)
    (hmu : step.isMuAlpha = true)
    (hlv : step.lv = LogicalVolume.inShell ∨ step.lv = LogicalVolume.midShell
      ∨ step.lv = LogicalVolume.outShell)
    (hout : (s.userInfo.getD ShellSegment.fresh).inside = false) :
    UserSteppingAction env s step
      = some { s with userInfo := some ⟨step.position, step.globalTime, true, step.position, step.copyNo⟩ } := by
  rcases hlv with h | h | h <;> simp [UserSteppingAction, hmu, h, hout]

/-- C11: a step of the tracked particle whose pre-step volume is one of the
three shell volumes while the transit record is outside (inside flag false, or
no record yet) sets the record to: inside, entry position = track position of
the step, entry time = global time of the step, cone index = copy number of
the step, last-observed-inside position = entry position (the record is
written `⟨entryPos, entryTime, inside, lastInsidePos, coneIdx⟩`).  Nothing else
changes: no tally counter, no event flag, no random draw, and the track is
not killed. -/
theorem C11_shell_entry (env : Env α) (s : State α) (step : G4Step α)
    (hmu : step.isMuAlpha = true)
    (hlv : step.lv = LogicalVolume.inShell ∨ step.lv = LogicalVolume.midShell
      ∨ step.lv = LogicalVolume.outShell)
    (hout : (s.userInfo.getD ShellSegment.fresh).inside = false) :
    ∃ s', UserSteppingAction env s step = some s'
      ∧ s'.userInfo = some ⟨step.position, step.globalTime, true, step.position, step.copyNo⟩
      ∧ s'.coneIon = s.coneIon ∧ s'.coneCap = s.coneCap
      ∧ s'.panelIon = s.panelIon ∧ s'.panelCap = s.panelCap
      ∧ s'.rngDraws = s.rngDraws ∧ s'.trackStatus = s.trackStatus
      ∧ s'.stepLength = s.stepLength
      ∧ s'.gEventCaptureOccurred = s.gEventCaptureOccurred
      ∧ s'.gEventIonizationOccurred = s.gEventIonizationOccurred := by
  refine ⟨{ s with userInfo := some ⟨step.position, step.globalTime, true, step.position, step.copyNo⟩ }, ?_,
    rfl, rfl, rfl, rfl, rfl, rfl, rfl, rfl, rfl, rfl⟩
  rcases hlv with h | h | h <;> simp [UserSteppingAction, hmu, h, hout]

/-- Instance of C11 at `stateOutside` and a step in the middle shell of cone 5. -/
theorem C11_shell_entry_witness :
    ((stepInShell LogicalVolume.midShell).isMuAlpha = true
      ∧ ((stepInShell LogicalVolume.midShell).lv = LogicalVolume.inShell
        ∨ (stepInShell LogicalVolume.midShell).lv = LogicalVolume.midShell
        ∨ (stepInShell LogicalVolume.midShell).lv = LogicalVolume.outShell)
      ∧ (stateOutside.userInfo.getD ShellSegment.fresh).inside = false)
    ∧ ∃ s', UserSteppingAction envUnit stateOutside (stepInShell LogicalVolume.midShell) = some s'
      ∧ s'.userInfo = some ⟨⟨1, 2, 3⟩, 3, true, ⟨1, 2, 3⟩, 5⟩
      ∧ s'.coneIon = stateOutside.coneIon ∧ s'.coneCap = stateOutside.coneCap
      ∧ s'.panelIon = stateOutside.panelIon ∧ s'.panelCap = stateOutside.panelCap
      ∧ s'.rngDraws = stateOutside.rngDraws ∧ s'.trackStatus = stateOutside.trackStatus
      ∧ s'.stepLength = stateOutside.stepLength
      ∧ s'.gEventCaptureOccurred = stateOutside.gEventCaptureOccurred
      ∧ s'.gEventIonizationOccurred = stateOutside.gEventIonizationOccurred :=
  ⟨⟨rfl, Or.inr (Or.inl rfl), rfl⟩,
    C11_shell_entry envUnit stateOutside (stepInShell LogicalVolume.midShell) rfl
      (Or.inr (Or.inl rfl)) rfl⟩

/-- C12: (a) a step of the tracked particle whose pre-step volume is a shell
while the record is already inside changes only the last-observed-inside
position, which becomes the track position of the step: entry position, entry
time, cone index (whatever the copy number of the step) and inside flag, the
tally counters, the event flags, the draw count and the track status are
unchanged.  (b) A step outside all shells and the cone while the record is
outside changes nothing at all; a track that has no record yet gets the
freshly constructed (outside) record attached, and nothing else changes. -/
theorem C12_inside_and_outside_steps (env : Env α) (s : State α) (step : G4Step α)
    (info : ShellSegment α) (hmu : step.isMuAlpha = true) :
    ((step.lv = LogicalVolume.inShell ∨ step.lv = LogicalVolume.midShell
        ∨ step.lv = LogicalVolume.outShell) →
      s.userInfo = some info → info.inside = true →
      UserSteppingAction env s step
        = some { s with userInfo := some { info with lastInsidePos := step.position } })
    ∧ (step.lv = LogicalVolume.other → s.userInfo = some info → info.inside = false →
        UserSteppingAction env s step = some s)
    ∧ (step.lv = LogicalVolume.other → s.userInfo = none →
        UserSteppingAction env s step = some { s with userInfo := some ShellSegment.fresh }) := by
  refine ⟨?_, ?_, ?_⟩
  · intro hlv hinfo hin
    rcases hlv with h | h | h <;> simp [UserSteppingAction, hmu, h, hinfo, hin]
  · intro hlv hinfo hin
    simp [UserSteppingAction, hmu, hlv, hinfo, hin]
    cases s
    simp_all
  · intro hlv hinfo
    simp [UserSteppingAction, hmu, hlv, hinfo, ShellSegment.fresh]

/-- Instance of C12 at `stateInside` with a step in the outer shell of
cone 5 (the record belongs to cone 0), and at `stateOutside` with a step
outside. -/
theorem C12_inside_and_outside_steps_witness :
    ((stepInShell LogicalVolume.outShell).isMuAlpha = true
      ∧ (stepAtOrigin LogicalVolume.other).isMuAlpha = true
      ∧ stateInside.userInfo = some infoInside ∧ infoInside.inside = true
      ∧ stateOutside.userInfo = some infoOutside ∧ infoOutside.inside = false)
    ∧ UserSteppingAction envUnit stateInside (stepInShell LogicalVolume.outShell)
        = some { stateInside with
            userInfo := some { infoInside with lastInsidePos := ⟨1, 2, 3⟩ } }
    ∧ UserSteppingAction envUnit stateOutside (stepAtOrigin LogicalVolume.other)
        = some stateOutside :=
  ⟨⟨rfl, rfl, rfl, rfl, rfl, rfl⟩,
    (C12_inside_and_outside_steps envUnit stateInside (stepInShell LogicalVolume.outShell)
      infoInside rfl).1 (Or.inr (Or.inr rfl)) rfl rfl,
    (C12_inside_and_outside_steps envUnit stateOutside (stepAtOrigin LogicalVolume.other)
      infoOutside rfl).2.1 rfl rfl rfl⟩

theorem increment_of_subscript (v : List Nat) (i : Int) (c : Nat)
    (h : subscript v i = some c) :
    increment v i = some (v.set i.toNat ((c + 1) % UINT_MOD)) := by
  simp [increment, h]

/-- C13: after a shell-exit step (pre-step volume neither a shell nor the
cone, record inside; the entry cone index and its panel index being valid
subscripts) the record's inside flag is false and the number of drawn random
values has grown by exactly one, whether or not the particle was ionised; and
a later step of the particle in a shell is then handled as a fresh entry: it
overwrites entry position, entry time and cone index (and the last-inside
position) with the values of that step and sets the flag again. -/
theorem C13_exit_resets_record (env : Env α) (s : State α) (step : G4Step α)
    (info : ShellSegment α) (ci : ConeInfo α) (cIon pIon : Nat)
    (hmu : step.isMuAlpha = true) (hlv : step.lv = LogicalVolume.other)
    (hinfo : s.userInfo = some info) (hin : info.inside = true)
    (hci : subscript env.conesInfo info.coneIdx = some ci)
    (hcone : subscript s.coneIon info.coneIdx = some cIon)
    (hpanel : subscript s.panelIon ci.panelIdx = some pIon) :
    ∃ s', UserSteppingAction env s step = some s'
      ∧ s'.userInfo = some { info with inside := false }
      ∧ s'.rngDraws = s.rngDraws + 1
      ∧ ∀ later : G4Step α, later.isMuAlpha = true →
          (later.lv = LogicalVolume.inShell ∨ later.lv = LogicalVolume.midShell
            ∨ later.lv = LogicalVolume.outShell) →
          UserSteppingAction env s' later
            = some { s' with
      userInfo := some ⟨later.position, later.globalTime, true, later.position, later.copyNo⟩ } := by
  by_cases hu : env.uniform s.rngDraws < Pint env ci info step
  · refine ⟨_, shellExit_yes env s step info ci _ _ hmu hlv hinfo hin hci
      (increment_of_subscript _ _ _ hcone) (increment_of_subscript _ _ _ hpanel) hu,
      rfl, rfl, ?_⟩
    intro later hmu2 hlv2
    exact shellEnter env _ later hmu2 hlv2 rfl
  · refine ⟨_, shellExit_no env s step info ci hmu hlv hinfo hin hci hu, rfl, rfl, ?_⟩
    intro later hmu2 hlv2
    exact shellEnter env _ later hmu2 hlv2 rfl

/-- Instance of C13 at `envUnit`, `stateInside` and an exit step at the origin. -/
theorem C13_exit_resets_record_witness :
    ((stepAtOrigin LogicalVolume.other).isMuAlpha = true
      ∧ (stepAtOrigin LogicalVolume.other).lv = LogicalVolume.other
      ∧ stateInside.userInfo = some infoInside ∧ infoInside.inside = true
      ∧ subscript envUnit.conesInfo infoInside.coneIdx = some ⟨⟨0, 0, 0⟩, 0, 0, 0⟩
      ∧ subscript stateInside.coneIon infoInside.coneIdx = some 0
      ∧ subscript stateInside.panelIon 0 = some 0)
    ∧ ∃ s', UserSteppingAction envUnit stateInside (stepAtOrigin LogicalVolume.other) = some s'
      ∧ s'.userInfo = some { infoInside with inside := false }
      ∧ s'.rngDraws = stateInside.rngDraws + 1
      ∧ ∀ later : G4Step ℝ, later.isMuAlpha = true →
          (later.lv = LogicalVolume.inShell ∨ later.lv = LogicalVolume.midShell
            ∨ later.lv = LogicalVolume.outShell) →
          UserSteppingAction envUnit s' later
            = some { s' with
      userInfo := some ⟨later.position, later.globalTime, true, later.position, later.copyNo⟩ } :=
  ⟨⟨rfl, rfl, rfl, rfl, rfl, rfl, rfl⟩,
    C13_exit_resets_record envUnit stateInside (stepAtOrigin LogicalVolume.other) infoInside
      ⟨⟨0, 0, 0⟩, 0, 0, 0⟩ 0 0 rfl rfl rfl rfl rfl rfl rfl⟩

/-! ## Range of the ionisation probability -/

/-- Every sample point of the crossing `infoNear`, `stepNear` has the
cone-local coordinates `(2, 1/2)` and contributes the interpolated value
there. -/
theorem envNear_contribution (i : Nat) :
    specContribution envNear ⟨0, 0, 0⟩
        (specSamplePoint (ThreeVector.scale ⟨2000, 0, 500⟩ (1 / 1000))
          (ThreeVector.scale ⟨2000, 0, 500⟩ (1 / 1000)) i) = (1 - 10 ^ 13) / 2 := by
  have h4 : Real.sqrt (2 * 2) = 2 := Real.sqrt_mul_self (by norm_num)
  have hin : Inside (tableNear ℝ) 2 (1 / 2) = true := by
    rw [inside_iff_exists]
    refine ⟨⟨⟨1, 0, 1⟩, ?_, ?_⟩, ⟨⟨3, 1, 0⟩, ?_, ?_⟩, ⟨⟨1, 0, 1⟩, ?_, ?_⟩, ⟨⟨3, 1, 0⟩, ?_, ?_⟩⟩ <;>
      simp [tableNear] <;> norm_num
  have hx : (2000 : ℝ) * (1 / 1000) = 2 := by norm_num
  have hz : (500 : ℝ) * (1 / 1000) = 1 / 2 := by norm_num
  simp only [specContribution, specSamplePoint, ThreeVector.scale, envNear, envUnit, hx, hz,
    sub_self, mul_zero, add_zero, sub_zero, zero_mul, h4, hin, if_true]
  exact interp_tableNear

/-- C28 (evaluation at the failing input): every rate of `tableNear` is
non-negative and the crossing `infoNear`, `stepNear` has `T0 = 0 ≤ T1 = 1`,
yet the sum of the sampled rates is `20 * (1 - 10^13) / 2` and the probability
computed at the shell exit is `1 - exp ((10^13 - 1) / 2)`, which is
negative. -/
theorem C28_negative_probability :
    (∀ p ∈ envNear.table, 0 ≤ p.rate) ∧ infoNear.entryTime ≤ stepNear.globalTime ∧
    sumLambda envNear ⟨0, 0, 0⟩ (infoNear.entryPos.scale (1 / 1000))
        (stepNear.position.scale (1 / 1000)) = 20 * ((1 - 10 ^ 13) / 2) ∧
    Pint envNear ⟨⟨0, 0, 0⟩, 0, 0, 0⟩ infoNear stepNear = 1 - Real.exp ((10 ^ 13 - 1) / 2) ∧
    Pint envNear ⟨⟨0, 0, 0⟩, 0, 0, 0⟩ infoNear stepNear < 0 := by
  have hsum : sumLambda envNear ⟨0, 0, 0⟩ (infoNear.entryPos.scale (1 / 1000))
      (stepNear.position.scale (1 / 1000)) = 20 * ((1 - 10 ^ 13) / 2) := by
    simp only [sumLambda_eq_sum, infoNear, stepNear, envNear_contribution]
    simp
  have hP : Pint envNear ⟨⟨0, 0, 0⟩, 0, 0, 0⟩ infoNear stepNear
      = 1 - Real.exp ((10 ^ 13 - 1) / 2) := by
    unfold Pint
    simp only [hsum]
    have harg : -(20 * ((1 - 10 ^ 13 : ℝ) / 2)) * ((stepNear.globalTime - infoNear.entryTime) / (N : ℝ))
        = (10 ^ 13 - 1) / 2 := by
      simp only [stepNear, infoNear, N]
      norm_num
    rw [harg]
    rfl
  refine ⟨?_, ?_, hsum, hP, ?_⟩
  · intro p hp
    simp only [envNear, tableNear, List.mem_cons, List.mem_singleton, List.not_mem_nil,
      or_false] at hp
    rcases hp with rfl | rfl | rfl | rfl <;> norm_num
  · simp [infoNear, stepNear]
  · rw [hP, sub_neg]
    exact Real.one_lt_exp_iff.mpr (by norm_num)

/-! ## Consistency of the tallies -/

/-- Sum of a counter vector after one entry has been replaced. -/
theorem sum_set_counter (counts : List Nat) (j c v : Nat) (h : counts[j]? = some c) :
    (counts.set j v).sum + c = counts.sum + v := by
  induction counts generalizing j with
  | nil => simp at h
  | cons a t ih =>
    cases j with
    | zero =>
      simp only [List.getElem?_cons_zero, Option.some.injEq] at h
      subst h
      simp only [List.set_cons_zero, List.sum_cons]
      omega
    | succ j =>
      simp only [List.getElem?_cons_succ] at h
      have := ih j h
      simp only [List.set_cons_succ, List.sum_cons]
      omega

/-- An entry of a counter vector is at most the sum of the vector. -/
theorem counter_le_sum (counts : List Nat) (j c : Nat) (h : counts[j]? = some c) :
    c ≤ counts.sum := by
  have := sum_set_counter counts j c 0 h
  omega

/-- The panel sums after the counter of cone `j` has been replaced. -/
theorem panelSum_set {β : Type} (infos : List (ConeInfo β)) (counts : List Nat) (j c v : Nat)
    (ci : ConeInfo β) (p : Int) (hi : infos[j]? = some ci) (h : counts[j]? = some c) :
    panelSum infos (counts.set j v) p + (if ci.panelIdx = p then c else 0)
      = panelSum infos counts p + (if ci.panelIdx = p then v else 0) := by
  induction infos generalizing counts j with
  | nil => simp at hi
  | cons a t ih =>
    cases counts with
    | nil => simp at h
    | cons b u =>
      cases j with
      | zero =>
        simp only [List.getElem?_cons_zero, Option.some.injEq] at h hi
        subst h hi
        by_cases hp : a.panelIdx = p
        · simp [panelSum, List.filter_cons, hp]
          omega
        · simp [panelSum, List.filter_cons, hp]
      | succ j =>
        simp only [List.getElem?_cons_succ] at h hi
        have := ih u j hi h
        by_cases hp : a.panelIdx = p <;>
          simp [panelSum, List.filter_cons, hp] at this ⊢ <;> omega

/-- What a successful subscript with an `int` index yields. -/
theorem subscript_some {β : Type} (v : List β) (i : Int) (c : β) (h : subscript v i = some c) :
    v[i.toNat]? = some c ∧ i = (i.toNat : Int) := by
  unfold subscript at h
  split at h
  · simp at h
  · exact ⟨h, by omega⟩

/-- What a successful increment yields. -/
theorem increment_some (v w : List Nat) (i : Int) (h : increment v i = some w) :
    ∃ c, v[i.toNat]? = some c ∧ i = (i.toNat : Int) ∧ w = v.set i.toNat ((c + 1) % UINT_MOD) := by
  unfold increment at h
  split at h
  · rename_i c hc
    obtain ⟨h1, h2⟩ := subscript_some v i c hc
    exact ⟨c, h1, h2, (Option.some.inj h).symm⟩
  · simp at h

/-- A paired update raises neither sum by more than 1. -/
theorem bump_le {β : Type} (infos : List (ConeInfo β)) (cone panel cone2 panel2 : List Nat)
    (h : Bump infos cone panel cone2 panel2) :
    cone2.sum ≤ cone.sum + 1 ∧ panel2.sum ≤ panel.sum + 1 := by
  obtain ⟨j, q, c, d, ci, -, hc, -, hd, rfl, rfl⟩ := h
  have h1 := sum_set_counter cone j c ((c + 1) % UINT_MOD) hc
  have h2 := sum_set_counter panel q d ((d + 1) % UINT_MOD) hd
  have h3 : (c + 1) % UINT_MOD ≤ c + 1 := Nat.mod_le _ _
  have h4 : (d + 1) % UINT_MOD ≤ d + 1 := Nat.mod_le _ _
  omega

/-- An increment that does not lower the counter did not wrap. -/
theorem succ_mod_of_le (c : Nat) (h : c ≤ (c + 1) % UINT_MOD) : (c + 1) % UINT_MOD = c + 1 := by
  unfold UINT_MOD at h ⊢
  omega

/-- A paired update in which neither sum goes down keeps the two vectors
consistent. -/
theorem bump_inv {β : Type} (infos : List (ConeInfo β)) (cone panel cone2 panel2 : List Nat)
    (hinv : PairInv infos cone panel) (hcone : cone.sum ≤ cone2.sum)
    (hpanel : panel.sum ≤ panel2.sum) (h : Bump infos cone panel cone2 panel2) :
    PairInv infos cone2 panel2 := by
  obtain ⟨j, q, c, d, ci, hi, hc, hq, hd, rfl, rfl⟩ := h
  obtain ⟨hsum, hpan⟩ := hinv
  have hcm : (c + 1) % UINT_MOD = c + 1 := by
    have := sum_set_counter cone j c ((c + 1) % UINT_MOD) hc
    exact succ_mod_of_le c (by omega)
  have hdm : (d + 1) % UINT_MOD = d + 1 := by
    have := sum_set_counter panel q d ((d + 1) % UINT_MOD) hd
    exact succ_mod_of_le d (by omega)
  rw [hcm, hdm]
  have h1 := sum_set_counter cone j c (c + 1) hc
  have h2 := sum_set_counter panel q d (d + 1) hd
  refine ⟨by omega, ?_⟩
  intro p
  have h3 := panelSum_set infos cone j c (c + 1) ci (p : Int) hi hc
  have h4 := hpan p
  have hql : q < panel.length := by
    by_contra hcon
    rw [List.getElem?_eq_none (by omega)] at hd
    simp at hd
  by_cases hp : q = p
  · subst hp
    rw [hd] at h4
    simp only [Option.getD_some] at h4
    simp only [hq, if_true] at h3
    rw [List.getElem?_set_self hql]
    simp only [Option.getD_some]
    omega
  · have hne : ¬ ((q : Int) = (p : Int)) := by omega
    simp only [hq, hne, if_false, add_zero] at h3
    rw [List.getElem?_set_ne hp]
    omega

/-- What one call of `UserSteppingAction` does to the four counter vectors:
nothing, one capture, or one ionization. -/
theorem step_counters (env : Env α) (s t : State α) (step : G4Step α)
    (h : UserSteppingAction env s step = some t) :
    (t.coneCap = s.coneCap ∧ t.panelCap = s.panelCap ∧ t.coneIon = s.coneIon
        ∧ t.panelIon = s.panelIon) ∨
    (Bump env.conesInfo s.coneCap s.panelCap t.coneCap t.panelCap ∧ t.coneIon = s.coneIon
        ∧ t.panelIon = s.panelIon) ∨
    (Bump env.conesInfo s.coneIon s.panelIon t.coneIon t.panelIon ∧ t.coneCap = s.coneCap
        ∧ t.panelCap = s.panelCap) := by
  unfold UserSteppingAction at h
  split at h
  · cases h
    exact Or.inl ⟨rfl, rfl, rfl, rfl⟩
  · split at h
    · split at h
      · rename_i coneCap ci hcap hci
        split at h
        · rename_i panelCap hpan
          cases h
          obtain ⟨c, hc1, -, hc3⟩ := increment_some _ _ _ hcap
          obtain ⟨hi1, -⟩ := subscript_some _ _ _ hci
          obtain ⟨d, hd1, hd2, hd3⟩ := increment_some _ _ _ hpan
          exact Or.inr (Or.inl ⟨⟨_, _, c, d, ci, hi1, hc1, hd2, hd1, hc3, hd3⟩, rfl, rfl⟩)
        · simp at h
      · simp at h
    · dsimp only at h
      split at h
      · cases h
        exact Or.inl ⟨rfl, rfl, rfl, rfl⟩
      · split at h
        · cases h
          exact Or.inl ⟨rfl, rfl, rfl, rfl⟩
        · split at h
          · split at h
            · rename_i ci hci
              split at h
              · split at h
                · rename_i coneIon panelIon hion hpan
                  cases h
                  obtain ⟨c, hc1, -, hc3⟩ := increment_some _ _ _ hion
                  obtain ⟨hi1, -⟩ := subscript_some _ _ _ hci
                  obtain ⟨d, hd1, hd2, hd3⟩ := increment_some _ _ _ hpan
                  exact Or.inr (Or.inr
                    ⟨⟨_, _, c, d, ci, hi1, hc1, hd2, hd1, hc3, hd3⟩, rfl, rfl⟩)
                · simp at h
              · cases h
                exact Or.inl ⟨rfl, rfl, rfl, rfl⟩
            · simp at h
          · cases h
            exact Or.inl ⟨rfl, rfl, rfl, rfl⟩

/-- All-zero counter vectors are consistent. -/
theorem pairInv_zero {β : Type} (infos : List (ConeInfo β)) (a b : Nat) :
    PairInv infos (List.replicate a 0) (List.replicate b 0) := by
  refine ⟨by simp, ?_⟩
  intro p
  have h1 : ((List.replicate b 0)[p]?).getD 0 = 0 := by
    by_cases hp : p < b
    · simp [List.getElem?_replicate, hp]
    · simp [List.getElem?_replicate, hp]
  rw [h1]
  symm
  unfold panelSum
  apply List.sum_eq_zero
  intro x hx
  obtain ⟨y, hy, rfl⟩ := List.mem_map.mp hx
  have hz := List.mem_of_mem_filter hy
  obtain ⟨-, h2⟩ := List.of_mem_zip hz
  exact List.eq_of_mem_replicate h2

/-- One worker event across which no counter wraps keeps the tallies
consistent. -/
theorem apply_inv (env : Env α) (s t : State α) (e : WorkerEvent α)
    (hinv : TallyInv env s) (hw : NoWrapStep s t) (h : e.apply env s = some t) :
    TallyInv env t := by
  obtain ⟨hcap, hion⟩ := hinv
  obtain ⟨w1, w2, w3, w4⟩ := hw
  cases e with
  | nextTrack status len info cap ion =>
    simp only [WorkerEvent.apply, Option.some.injEq] at h
    subst h
    exact ⟨hcap, hion⟩
  | step st =>
    simp only [WorkerEvent.apply] at h
    rcases step_counters env s t st h with ⟨h1, h2, h3, h4⟩ | ⟨hb, h3, h4⟩ | ⟨hb, h1, h2⟩
    · unfold TallyInv
      rw [h1, h2, h3, h4]
      exact ⟨hcap, hion⟩
    · have hinv2 := bump_inv _ _ _ _ _ hcap w1 w2 hb
      unfold TallyInv
      rw [h3, h4]
      exact ⟨hinv2, hion⟩
    · have hinv2 := bump_inv _ _ _ _ _ hion w3 w4 hb
      unfold TallyInv
      rw [h1, h2]
      exact ⟨hcap, hinv2⟩

/-- A sequence of worker events in which no counter wraps keeps the tallies
consistent. -/
theorem run_inv (env : Env α) (evs : List (WorkerEvent α)) (s t : State α)
    (hinv : TallyInv env s) (hw : NoWrap env s evs)
    (h : runWorker env s evs = some t) :
    TallyInv env t := by
  induction evs generalizing s with
  | nil =>
    simp only [runWorker, Option.some.injEq] at h
    subst h
    exact hinv
  | cons e es ih =>
    simp only [runWorker] at h
    cases hs : e.apply env s with
    | none => simp [hs] at h
    | some u =>
      simp only [hs, Option.some_bind] at h
      simp only [NoWrap, hs] at hw
      exact ih u (apply_inv env s u e hinv hw.1 hs) hw.2 h

/-- A single step raises neither grand total by more than 1. -/
theorem step_total_le (env : Env α) (s t : State α) (step : G4Step α)
    (h : UserSteppingAction env s step = some t) :
    t.coneCap.sum + t.coneIon.sum ≤ s.coneCap.sum + s.coneIon.sum + 1 ∧
    t.panelCap.sum + t.panelIon.sum ≤ s.panelCap.sum + s.panelIon.sum + 1 := by
  rcases step_counters env s t step h with ⟨h1, h2, h3, h4⟩ | ⟨hb, h3, h4⟩ | ⟨hb, h1, h2⟩
  · rw [h1, h2, h3, h4]
    omega
  · have := bump_le _ _ _ _ _ hb
    rw [h3, h4]
    omega
  · have := bump_le _ _ _ _ _ hb
    rw [h1, h2]
    omega

/-- C26: starting from all-zero worker counters, after any sequence of worker
events in which no counter wraps around and no vector is subscripted outside
its range, the sum of the per-cone capture counters equals the sum of the
per-panel capture counters, the same holds for the ionization counters, and
each per-panel counter equals the sum of the per-cone counters of the cones
whose `ConeInfo` names that panel; a single call of `UserSteppingAction`
raises the grand total of captures plus ionizations, per cone as well as per
panel, by at most 1. -/
theorem C26_tally_invariant (env : Env α) (s0 t : State α) (evs : List (WorkerEvent α))
    (nCones nPanels : Nat)
    (hz : s0.coneCap = RunAction.zeroCounters nCones ∧ s0.coneIon = RunAction.zeroCounters nCones ∧
      s0.panelCap = RunAction.zeroCounters nPanels ∧ s0.panelIon = RunAction.zeroCounters nPanels)
    (hwrap : NoWrap env s0 evs)
    (hrun : runWorker env s0 evs = some t) :
    t.coneCap.sum = t.panelCap.sum ∧ t.coneIon.sum = t.panelIon.sum ∧
    (∀ p c : Nat, t.panelCap[p]? = some c → c = panelSum env.conesInfo t.coneCap (p : Int)) ∧
    (∀ p c : Nat, t.panelIon[p]? = some c → c = panelSum env.conesInfo t.coneIon (p : Int)) ∧
    (∀ (s u : State α) (step : G4Step α), UserSteppingAction env s step = some u →
      u.coneCap.sum + u.coneIon.sum ≤ s.coneCap.sum + s.coneIon.sum + 1 ∧
      u.panelCap.sum + u.panelIon.sum ≤ s.panelCap.sum + s.panelIon.sum + 1) := by
  obtain ⟨z1, z2, z3, z4⟩ := hz
  have h0 : TallyInv env s0 := by
    unfold TallyInv
    rw [z1, z2, z3, z4]
    unfold RunAction.zeroCounters
    exact ⟨pairInv_zero _ _ _, pairInv_zero _ _ _⟩
  obtain ⟨⟨hc1, hc2⟩, ⟨hi1, hi2⟩⟩ := run_inv env evs s0 t h0 hwrap hrun
  refine ⟨hc1, hi1, ?_, ?_, fun s u step h => step_total_le env s u step h⟩
  · intro p c hpc
    have := hc2 p
    rw [hpc] at this
    exact this
  · intro p c hpc
    have := hi2 p
    rw [hpc] at this
    exact this

/-- C26 at a concrete run: one cone in one panel, a change of track and one
capture in cone 0. -/
theorem C26_tally_invariant_witness :
    NoWrap envUnit stateInside
        [WorkerEvent.nextTrack TrackStatus.fAlive 1 none false false,
         WorkerEvent.step (stepAtOrigin LogicalVolume.cone)] ∧
    runWorker envUnit stateInside
        [WorkerEvent.nextTrack TrackStatus.fAlive 1 none false false,
         WorkerEvent.step (stepAtOrigin LogicalVolume.cone)]
      = some { stateCaptured with userInfo := none } ∧
    stateCaptured.coneCap.sum = stateCaptured.panelCap.sum ∧
    stateCaptured.coneIon.sum = stateCaptured.panelIon.sum ∧
    (∀ p c : Nat, stateCaptured.panelCap[p]? = some c →
      c = panelSum envUnit.conesInfo stateCaptured.coneCap (p : Int)) ∧
    (∀ p c : Nat, stateCaptured.panelIon[p]? = some c →
      c = panelSum envUnit.conesInfo stateCaptured.coneIon (p : Int)) ∧
    (∀ (s u : State ℝ) (step : G4Step ℝ), UserSteppingAction envUnit s step = some u →
      u.coneCap.sum + u.coneIon.sum ≤ s.coneCap.sum + s.coneIon.sum + 1 ∧
      u.panelCap.sum + u.panelIon.sum ≤ s.panelCap.sum + s.panelIon.sum + 1) :=
  have hwrap : NoWrap envUnit stateInside
      [WorkerEvent.nextTrack TrackStatus.fAlive 1 none false false,
       WorkerEvent.step (stepAtOrigin LogicalVolume.cone)] := by
    simp [NoWrap, NoWrapStep, WorkerEvent.apply, UserSteppingAction, stepAtOrigin, stateInside,
      envUnit, increment, subscript, UINT_MOD]
  have hrun : runWorker envUnit stateInside
      [WorkerEvent.nextTrack TrackStatus.fAlive 1 none false false,
       WorkerEvent.step (stepAtOrigin LogicalVolume.cone)]
        = some { stateCaptured with userInfo := none } := by
    simp [runWorker, WorkerEvent.apply, UserSteppingAction, stepAtOrigin, stateInside,
      stateCaptured, envUnit, increment, subscript, UINT_MOD]
  ⟨hwrap, hrun, C26_tally_invariant envUnit stateInside { stateCaptured with userInfo := none }
    [WorkerEvent.nextTrack TrackStatus.fAlive 1 none false false,
     WorkerEvent.step (stepAtOrigin LogicalVolume.cone)] 1 1
    ⟨rfl, rfl, rfl, rfl⟩ hwrap hrun⟩

end SteppingAction

namespace RunAction

/-! ## Tally merge -/

open SteppingAction

theorem zipWith_zero (n : Nat) :
    List.zipWith (fun g w => (g + w) % UINT_MOD) (List.replicate n 0) (List.replicate n 0)
      = List.replicate n 0 := by
  induction n with
  | zero => rfl
  | succ n ih =>
    simp only [List.replicate_succ, List.zipWith_cons_cons, ih]
    rfl

theorem mergeInto_set (n i a b : Nat) :
    mergeInto ((zeroCounters n).set i a) ((zeroCounters n).set i b)
      = (zeroCounters n).set i ((a + b) % UINT_MOD) := by
  unfold mergeInto zeroCounters
  induction n generalizing i with
  | zero => rfl
  | succ n ih =>
    cases i with
    | zero =>
      simp only [List.replicate_succ, List.set_cons_zero, List.zipWith_cons_cons, zipWith_zero]
    | succ i =>
      simp only [List.replicate_succ, List.set_cons_succ, List.zipWith_cons_cons, ih]
      rfl

theorem incrementTimes_zero (n i K : Nat) (hi : i < n) (hK : K < UINT_MOD) :
    incrementTimes (zeroCounters n) (i : Int) K = some ((zeroCounters n).set i K) := by
  induction K with
  | zero =>
    unfold incrementTimes zeroCounters
    congr 1
    apply List.ext_getElem?
    intro j
    by_cases hj : i = j
    · subst hj
      simp [hi]
    · simp [List.getElem?_set_ne hj]
  | succ K ih =>
    unfold incrementTimes
    rw [ih (by omega)]
    have h0 : ¬ ((i : Int) < 0) := by omega
    have hget : ((zeroCounters n).set i K)[i]? = some K := by simp [zeroCounters, hi]
    simp only [Option.some_bind, increment, subscript, if_neg h0, Int.toNat_ofNat, hget,
      List.set_set, Nat.mod_eq_of_lt hK]

theorem fold_mergeInto (n i K : Nat) (workers : List (List Nat))
    (hw : ∀ w ∈ workers, w = (zeroCounters n).set i K) (a : Nat)
    (hfit : a + workers.length * K < UINT_MOD) :
    workers.foldl mergeInto ((zeroCounters n).set i a)
      = (zeroCounters n).set i (a + workers.length * K) := by
  induction workers generalizing a with
  | nil => simp
  | cons w ws ih =>
    simp only [List.length_cons, Nat.add_mul, Nat.one_mul] at hfit
    rw [List.foldl_cons, hw w (List.mem_cons_self _ _), mergeInto_set,
      Nat.mod_eq_of_lt (by omega), ih (fun v hv => hw v (List.mem_cons_of_mem _ hv)) _ (by omega)]
    congr 1
    simp only [List.length_cons, Nat.add_mul, Nat.one_mul]
    omega

/-- C14: with the merge modelled as the elementwise sum of the workers'
private counters into a global tally that starts at zero: if each of `N`
workers, starting from zero counters, incremented the capture counter of the
same structure index `i` exactly `K` times, and `N * K` fits the 32-bit
unsigned counter, then after the merge the global capture counter of `i` is
`N * K` and every other counter is 0. -/
theorem C14_merge_sum (n i N K : Nat) (hi : i < n) (hfit : N * K < UINT_MOD)
    (workers : List (List Nat)) (hlen : workers.length = N)
    (hw : ∀ w ∈ workers, incrementTimes (zeroCounters n) (i : Int) K = some w) :
    (mergeAll n workers)[i]? = some (N * K)
    ∧ (∀ j, j < n → j ≠ i → (mergeAll n workers)[j]? = some 0)
    ∧ (mergeAll n workers).length = n := by
  have hset : ∀ w ∈ workers, w = (zeroCounters n).set i K := by
    intro w hwm
    have hN : 0 < N := by
      rw [← hlen]
      exact List.length_pos_of_mem hwm
    have hK : K < UINT_MOD := lt_of_le_of_lt (Nat.le_mul_of_pos_left K hN) hfit
    have h1 := hw w hwm
    rw [incrementTimes_zero n i K hi hK] at h1
    exact (Option.some.inj h1).symm
  have hzero : zeroCounters n = (zeroCounters n).set i 0 := by
    apply List.ext_getElem?
    intro j
    by_cases hj : i = j
    · subst hj
      simp [zeroCounters, hi]
    · simp [List.getElem?_set_ne hj]
  have hm : mergeAll n workers = (zeroCounters n).set i (N * K) := by
    unfold mergeAll
    rw [hzero, fold_mergeInto n i K workers hset 0 (by rw [hlen]; omega), hlen, Nat.zero_add,
      ← hzero]
  rw [hm]
  refine ⟨?_, ?_, ?_⟩
  · simp [zeroCounters, hi]
  · intro j hj hne
    rw [List.getElem?_set_ne (Ne.symm hne)]
    simp [zeroCounters, hj]
  · simp [zeroCounters]

/-- Instance of C14: three workers, five structures, each worker counts four
captures on structure 2; the merged counter is 12. -/
theorem C14_merge_sum_witness :
    ((2 : Nat) < 5 ∧ 3 * 4 < UINT_MOD
      ∧ [[0, 0, 4, 0, 0], [0, 0, 4, 0, 0], [0, 0, 4, 0, 0]].length = 3
      ∧ ∀ w ∈ [[0, 0, 4, 0, 0], [0, 0, 4, 0, 0], [0, 0, 4, 0, 0]],
          incrementTimes (zeroCounters 5) ((2 : Nat) : Int) 4 = some w)
    ∧ (mergeAll 5 [[0, 0, 4, 0, 0], [0, 0, 4, 0, 0], [0, 0, 4, 0, 0]])[2]? = some (3 * 4)
    ∧ (∀ j, j < 5 → j ≠ 2 →
        (mergeAll 5 [[0, 0, 4, 0, 0], [0, 0, 4, 0, 0], [0, 0, 4, 0, 0]])[j]? = some 0)
    ∧ (mergeAll 5 [[0, 0, 4, 0, 0], [0, 0, 4, 0, 0], [0, 0, 4, 0, 0]]).length = 5 :=
  ⟨⟨by decide, by decide, rfl, by decide⟩,
    C14_merge_sum 5 2 3 4 (by decide) (by decide)
      [[0, 0, 4, 0, 0], [0, 0, 4, 0, 0], [0, 0, 4, 0, 0]] rfl (by decide)⟩

/-! ## Run summary -/

open geom SteppingAction

/-- Writing entry `k` of the source into a vector that already holds the first
`k` entries. -/
theorem set_take_replicate (l : List Nat) (n k : Nat) (v : Nat) (hk : k < n) (hl : l.length = n)
    (hv : l[k]? = some v) :
    (l.take k ++ List.replicate (n - k) 0).set k v
      = l.take (k + 1) ++ List.replicate (n - (k + 1)) 0 := by
  have hkl : k < l.length := by omega
  have hlen : (l.take k).length = k := by simp [List.length_take]; omega
  rw [List.set_append]
  simp only [hlen, lt_self_iff_false, if_false, Nat.sub_self]
  obtain ⟨m, hm⟩ : ∃ m, n - k = m + 1 := ⟨n - k - 1, by omega⟩
  have hm2 : n - (k + 1) = m := by omega
  rw [hm, hm2, List.replicate_succ, List.set_cons_zero]
  have hv2 : l[k] = v := by
    rw [List.getElem?_eq_getElem hkl] at hv
    exact Option.some.inj hv
  rw [List.take_succ, List.getElem?_eq_getElem hkl, hv2]
  simp

/-- Sum of the first `k + 1` entries. -/
theorem sum_take_succ (l : List Nat) (k : Nat) (v : Nat) (hv : l[k]? = some v) :
    (l.take (k + 1)).sum = (l.take k).sum + v := by
  rw [List.take_succ, hv]
  simp

/-- State of the first loop of `EndOfRunAction` after `k` iterations. -/
theorem coneLoop_upto (r : Members) (hi : r.coneIon_.length = r.nCones_)
    (hc : r.coneCap_.length = r.nCones_) (k : Nat) (hk : k ≤ r.nCones_) :
    (List.range k).foldl (coneLoopStep r)
        (some (zeroCounters r.nCones_, zeroCounters r.nCones_, 0, 0))
      = some (r.coneIon_.take k ++ List.replicate (r.nCones_ - k) 0,
              r.coneCap_.take k ++ List.replicate (r.nCones_ - k) 0,
              (r.coneIon_.take k).sum % ULONG_MOD, (r.coneCap_.take k).sum % ULONG_MOD) := by
  induction k with
  | zero => simp [zeroCounters, ULONG_MOD]
  | succ k ih =>
    have hk1 : k < r.nCones_ := hk
    rw [List.range_succ, List.foldl_append, ih (by omega)]
    have h1 : r.coneIon_[k]? = some (r.coneIon_[k]) := List.getElem?_eq_getElem (by omega)
    have h2 : r.coneCap_[k]? = some (r.coneCap_[k]) := List.getElem?_eq_getElem (by omega)
    have hl1 : k < (r.coneIon_.take k ++ List.replicate (r.nCones_ - k) 0).length := by
      simp [List.length_take]; omega
    have hl2 : k < (r.coneCap_.take k ++ List.replicate (r.nCones_ - k) 0).length := by
      simp [List.length_take]; omega
    simp only [List.foldl_cons, List.foldl_nil, coneLoopStep, Option.some_bind, Option.bind_eq_bind,
      h1, h2, hl1, hl2, and_self, if_true]
    rw [set_take_replicate _ _ _ _ hk1 hi h1, set_take_replicate _ _ _ _ hk1 hc h2,
      sum_take_succ _ _ _ h1, sum_take_succ _ _ _ h2, Nat.mod_add_mod, Nat.mod_add_mod]

/-- State of the second loop of `EndOfRunAction` after `k` iterations. -/
theorem panelLoop_upto (r : Members) (hi : r.panelIon_.length = r.nPanels_)
    (hc : r.panelCap_.length = r.nPanels_) (k : Nat) (hk : k ≤ r.nPanels_) :
    (List.range k).foldl (panelLoopStep r)
        (some (zeroCounters r.nPanels_, zeroCounters r.nPanels_))
      = some (r.panelIon_.take k ++ List.replicate (r.nPanels_ - k) 0,
              r.panelCap_.take k ++ List.replicate (r.nPanels_ - k) 0) := by
  induction k with
  | zero => simp [zeroCounters]
  | succ k ih =>
    have hk1 : k < r.nPanels_ := hk
    rw [List.range_succ, List.foldl_append, ih (by omega)]
    have h1 : r.panelIon_[k]? = some (r.panelIon_[k]) := List.getElem?_eq_getElem (by omega)
    have h2 : r.panelCap_[k]? = some (r.panelCap_[k]) := List.getElem?_eq_getElem (by omega)
    have hl1 : k < (r.panelIon_.take k ++ List.replicate (r.nPanels_ - k) 0).length := by
      simp [List.length_take]; omega
    have hl2 : k < (r.panelCap_.take k ++ List.replicate (r.nPanels_ - k) 0).length := by
      simp [List.length_take]; omega
    simp only [List.foldl_cons, List.foldl_nil, panelLoopStep, Option.some_bind,
      Option.bind_eq_bind, h1, h2, hl1, hl2, and_self, if_true]
    rw [set_take_replicate _ _ _ _ hk1 hi h1, set_take_replicate _ _ _ _ hk1 hc h2]

/-- The summary computed by `EndOfRunAction` when the vectors have the sizes
`nCones_` and `nPanels_`. -/
theorem endOfRunAction_eq (r : Members) (nEvents : Nat)
    (h1 : r.coneIon_.length = r.nCones_) (h2 : r.coneCap_.length = r.nCones_)
    (h3 : r.panelIon_.length = r.nPanels_) (h4 : r.panelCap_.length = r.nPanels_) :
    EndOfRunAction r nEvents
      = some ⟨nEvents, r.coneIon_.sum % ULONG_MOD, r.coneCap_.sum % ULONG_MOD,
              r.coneIon_, r.coneCap_, r.panelIon_, r.panelCap_⟩ := by
  unfold EndOfRunAction
  rw [coneLoop_upto r h1 h2 _ le_rfl, panelLoop_upto r h3 h4 _ le_rfl]
  have e1 : List.take r.nCones_ r.coneIon_ = r.coneIon_ := List.take_of_length_le (by omega)
  have e2 : List.take r.nCones_ r.coneCap_ = r.coneCap_ := List.take_of_length_le (by omega)
  have e3 : List.take r.nPanels_ r.panelIon_ = r.panelIon_ := List.take_of_length_le (by omega)
  have e4 : List.take r.nPanels_ r.panelCap_ = r.panelCap_ := List.take_of_length_le (by omega)
  simp [e1, e2, e3, e4]

/-- The members built by the constructor, with the accumulables holding the
given values. -/
theorem ctor_withValues {α : Type} (cfg : GeometryConfig α)
    (ion cap panelIon panelCap : Nat → Nat) :
    (ctor cfg).withValues ion cap panelIon panelCap
      = { nCones_ := cfg.nCones
          nPanels_ := cfg.nPanels
          coneIon_ := (List.range cfg.nCones).map ion
          coneCap_ := (List.range cfg.nCones).map cap
          panelIon_ := (List.range cfg.nPanels).map panelIon
          panelCap_ := (List.range cfg.nPanels).map panelCap } := by
  simp [ctor, Members.withValues, zeroCounters]

/-- C23: let the `RunAction` be the one its constructor builds for `cfg`, and
let `ion i`, `cap i` be the merged counters of cone `i` and `panelIon i`,
`panelCap i` those of panel `i` (with both grand totals below `2^64`).  Then
`EndOfRunAction` hands a summary to the writer in which the total of
ionizations and the total of captures are the sums of the merged per-cone
counters over all cone indices, the per-cone arrays have length `nCones()`,
the per-panel arrays have length `nPanels()`, and every entry is the merged
counter of its index. -/
theorem C23_run_summary {α : Type} (cfg : GeometryConfig α)
    (ion cap panelIon panelCap : Nat → Nat) (nEvents : Nat)
    (hIon : ((List.range cfg.nCones).map ion).sum < ULONG_MOD)
    (hCap : ((List.range cfg.nCones).map cap).sum < ULONG_MOD) :
    ∃ s, EndOfRunAction ((ctor cfg).withValues ion cap panelIon panelCap) nEvents = some s ∧
      s.nEvents = nEvents ∧
      s.totalIon = ((List.range cfg.nCones).map ion).sum ∧
      s.totalCap = ((List.range cfg.nCones).map cap).sum ∧
      s.coneIon.length = cfg.nCones ∧ s.coneCap.length = cfg.nCones ∧
      s.panelIon.length = cfg.nPanels ∧ s.panelCap.length = cfg.nPanels ∧
      (∀ i : Nat, i < cfg.nCones → s.coneIon[i]? = some (ion i)) ∧
      (∀ i : Nat, i < cfg.nCones → s.coneCap[i]? = some (cap i)) ∧
      (∀ i : Nat, i < cfg.nPanels → s.panelIon[i]? = some (panelIon i)) ∧
      (∀ i : Nat, i < cfg.nPanels → s.panelCap[i]? = some (panelCap i)) := by
  rw [ctor_withValues]
  refine ⟨_, endOfRunAction_eq _ nEvents (by simp) (by simp) (by simp) (by simp), ?_⟩
  refine ⟨rfl, Nat.mod_eq_of_lt hIon, Nat.mod_eq_of_lt hCap, by simp, by simp, by simp, by simp,
    ?_, ?_, ?_, ?_⟩ <;>
  · intro i hi
    simp [List.getElem?_map, List.getElem?_range hi]

/-- C23 at a concrete run: one 2 x 2 panel, cone `i` with the merged counters
`i` (ionizations) and `2 * i` (captures), the panel with 6 and 12. -/
theorem C23_run_summary_witness :
    ((List.range cfgSquare.nCones).map (fun i => i)).sum < ULONG_MOD ∧
    ((List.range cfgSquare.nCones).map (fun i => 2 * i)).sum < ULONG_MOD ∧
    ∃ s, EndOfRunAction
        ((ctor cfgSquare).withValues (fun i => i) (fun i => 2 * i) (fun _ => 6) (fun _ => 12)) 7
          = some s ∧
      s.nEvents = 7 ∧
      s.totalIon = ((List.range cfgSquare.nCones).map (fun i => i)).sum ∧
      s.totalCap = ((List.range cfgSquare.nCones).map (fun i => 2 * i)).sum ∧
      s.coneIon.length = cfgSquare.nCones ∧ s.coneCap.length = cfgSquare.nCones ∧
      s.panelIon.length = cfgSquare.nPanels ∧ s.panelCap.length = cfgSquare.nPanels ∧
      (∀ i : Nat, i < cfgSquare.nCones → s.coneIon[i]? = some i) ∧
      (∀ i : Nat, i < cfgSquare.nCones → s.coneCap[i]? = some (2 * i)) ∧
      (∀ i : Nat, i < cfgSquare.nPanels → s.panelIon[i]? = some 6) ∧
      (∀ i : Nat, i < cfgSquare.nPanels → s.panelCap[i]? = some 12) :=
  have hIon : ((List.range cfgSquare.nCones).map (fun i => i)).sum < ULONG_MOD := by decide
  have hCap : ((List.range cfgSquare.nCones).map (fun i => 2 * i)).sum < ULONG_MOD := by decide
  ⟨hIon, hCap,
    C23_run_summary cfgSquare (fun i => i) (fun i => 2 * i) (fun _ => 6) (fun _ => 12) 7
      hIon hCap⟩

end RunAction

namespace ConeCombBuilder

/-! ## Placement of the cones -/

open geom SteppingAction

/-- C24 (evaluation at the failing input): in the default geometry of
`main.cc`, `ConeGlobalCenter 1` is `(-1200, -375, -150)` nm, whereas the only
cone that `Build` places with copy number 1 is the cone `ix = 0`, `iy = 1` of
panel 0, placed at `x = -1275` nm, `y = -225` nm. -/
theorem C24_center_differs_from_placement :
    cfgDefault.ConeGlobalCenter 1 = ⟨-1200, -375, -150⟩ ∧
    ((Build cfgDefault).filter (fun c => decide (c.copyNo = 1))).map
        (fun c => (c.info.panelIdx, c.info.ix, c.info.iy, c.position.x, c.position.y)) =
      [(0, 0, 1, -1275 * nm, -225 * nm)] := by
  decide!

/-- C25 (evaluation at the failing input): for two panels of sizes 2 x 3 and
1 x 2 the copy numbers assigned by `Build`, listed in the order of the
`ConeInfo` entries, are `0, 1, 2, 3, 4, 5, 2, 3`: the cones at positions 6 and
7 (panel 1) carry the copy numbers 2 and 3, which are also those of two cones
of panel 0, and `ConeInfo` entry 2 belongs to panel 0. -/
theorem C25_copy_numbers_collide :
    (cfgTwoPanels.panels.map (fun p => decide (0 < p.nx ∧ 0 < p.ny))) = [true, true] ∧
    (Build cfgTwoPanels).map (fun c => c.copyNo) = [0, 1, 2, 3, 4, 5, 2, 3] ∧
    (GetConesInfo cfgTwoPanels).map (fun ci => (ci.panelIdx, ci.ix, ci.iy)) =
      [(0, 0, 0), (0, 0, 1), (0, 0, 2), (0, 1, 0), (0, 1, 1), (0, 1, 2), (1, 0, 0), (1, 0, 1)] := by
  decide!

end ConeCombBuilder

namespace DetectorConstruction

/-! ## World volume -/

open geom ConeCombBuilder

/-- C29 (evaluation at the failing input): for one 1 x 1 panel with
`x0_nm = 5000` and zero offset, `Construct` computes the half-extents
`(2010, 2010, 2050)` nm, while `Build` places the cone at `x = 5000` nm, so
that `|x| + r_outer` exceeds `xWorld`. -/
theorem C29_world_too_small :
    worldHalfExtents cfgFar = (2010 * nm, 2010 * nm, 2050 * nm) ∧
    (Build cfgFar).map (fun c => c.position) = [⟨5000 * nm, 0, 500 * nm⟩] ∧
    ∀ c ∈ Build cfgFar,
      (worldHalfExtents cfgFar).1 < |c.position.x| + cfgFar.r_outer_nm * nm := by
  decide!

end DetectorConstruction
